import Mathlib

/-!
Verification of the repomind backend (an Express/MongoDB/OpenAI "ask questions
about a codebase" service) against its natural-language specification.

The JavaScript source is shallowly embedded: JS strings become `List Char`,
JS arrays become `List`, MongoDB collections become lists of records inside an
explicit `DbState`, and the nondeterministic parts (the LLM API, UUID
generation, the wall clock, Mongo object ids) become explicit parameters or
counters.  Each definition is translated from the corresponding function of
the source; comments name the source location.
-/

namespace RepoMind

open scoped List

/-- JS strings are modelled as lists of characters. -/
abbrev Str := List Char

/-- `String.prototype.toLowerCase` (ASCII range, as in `Char.toLower`). -/
def lower (s : Str) : Str := s.map Char.toLower

/-- The character class `\s` of JS regular expressions (whitespace). -/
def jsIsSpace (c : Char) : Bool :=
  c = ' ' || c = '\t' || c = '\n' || c = '\r' || c = '\x0b' || c = '\x0c' ||
  c = '\u00A0' || c = '\u1680' || ('\u2000' ≤ c && c ≤ '\u200A') ||
  c = '\u2028' || c = '\u2029' || c = '\u202F' || c = '\u205F' ||
  c = '\u3000' || c = '\uFEFF'

/-- The character class `\w` of JS regular expressions: `[A-Za-z0-9_]`. -/
def jsIsWordChar (c : Char) : Bool :=
  ('a' ≤ c && c ≤ 'z') || ('A' ≤ c && c ≤ 'Z') || ('0' ≤ c && c ≤ '9') || c = '_'

/-- `String.prototype.trim`: strip leading and trailing whitespace. -/
def jsTrim (s : Str) : Str :=
  ((s.dropWhile jsIsSpace).reverse.dropWhile jsIsSpace).reverse

/-- `question.replace(/[^\w\s]/g, ' ')` (server.js line 259): every character
that is neither a word character nor whitespace becomes a space. -/
def replaceNonWordBySpace (s : Str) : Str :=
  s.map (fun c => if !jsIsWordChar c && !jsIsSpace c then ' ' else c)

mutual

/-- Scanner state of `String.prototype.split(/\s+/)`: currently inside a word
whose characters (reversed) are `acc`. -/
def jsSplitWsGo : List Char → List Char → List (List Char)
  | [], acc => [acc.reverse]
  | c :: rest, acc =>
    if jsIsSpace c then acc.reverse :: jsSplitWsSkip rest
    else jsSplitWsGo rest (c :: acc)
termination_by s _ => s.length

/-- Scanner state of `String.prototype.split(/\s+/)`: currently inside a
whitespace run (which the regex collapses). -/
def jsSplitWsSkip : List Char → List (List Char)
  | [] => [[]]
  | c :: rest => if jsIsSpace c then jsSplitWsSkip rest else jsSplitWsGo rest [c]
termination_by s => s.length

end

/-- `String.prototype.split(/\s+/)`: JS yields a leading (resp. trailing)
empty string when the input starts (resp. ends) with whitespace, and `[""]`
on the empty string. -/
def jsSplitWs (s : Str) : List Str := jsSplitWsGo s []

/-- The `stopWords` list of `extractKeywords` (server.js line 255). -/
def stopWords : List Str :=
  ["what".toList, "where".toList, "how".toList, "when".toList, "why".toList,
   "is".toList, "are".toList, "the".toList, "a".toList, "an".toList,
   "in".toList, "on".toList, "at".toList, "to".toList, "for".toList,
   "of".toList, "with".toList, "does".toList, "do".toList]

/-- The intermediate `words` value of `extractKeywords` (server.js lines
257-261): lower-case, replace non-word characters by spaces, split on
whitespace, keep words longer than 2 that are not stop words. -/
def extractKeywordsWords (q : Str) : List Str :=
  (jsSplitWs (replaceNonWordBySpace (lower q))).filter
    (fun w => decide (2 < w.length) && !stopWords.contains w)

/-- `[...new Set(words)]`: deduplication keeping first occurrences in order. -/
def dedupFirst : List Str → List Str
  | [] => []
  | w :: ws => w :: (dedupFirst ws).filter (fun v => v != w)

/-- `extractKeywords` (server.js lines 253-264). -/
def extractKeywords (q : Str) : List Str := dedupFirst (extractKeywordsWords q)

/-- Helper for `countOccur`: counts matches of the non-empty pattern
`p :: ps`, scanning left to right and resuming after each match, exactly as
a JS global regex does. -/
def countOccurAux (p : Char) (ps : List Char) : List Char → Nat
  | [] => 0
  | c :: rest =>
    if (p :: ps).isPrefixOf (c :: rest) then 1 + countOccurAux p ps (rest.drop ps.length)
    else countOccurAux p ps rest
termination_by s => s.length
decreasing_by
· simp only [List.length_drop, List.length_cons]; omega
· simp only [List.length_cons]; omega

/-- `(content.match(new RegExp(keywordLower, 'g')) || []).length` (server.js
line 227): the number of left-to-right non-overlapping occurrences of the
pattern.  The keywords fed to it contain only `\w` characters, so the regex
matches literally.  (A JS global regex on the empty pattern yields
`length + 1` empty matches; that case is unreachable here since keywords
have length ≥ 3.) -/
def countOccur (pat s : Str) : Nat :=
  match pat with
  | [] => s.length + 1
  | p :: ps => countOccurAux p ps s

/-- A record of the `codefiles` collection (database.js lines 39-45), as
returned by `getCodebaseFiles` (database.js lines 118-130). -/
structure CodeFileRec where
  _id : Nat
  codebase_id : Str
  file_path : Str
  content : Str
  language : Str
  size : Nat
deriving DecidableEq

/-- `String.prototype.includes`: the needle occurs contiguously in the
haystack. -/
def strIncludes (needle hay : Str) : Bool :=
  match hay with
  | [] => needle.isEmpty
  | _ :: rest => needle.isPrefixOf hay || strIncludes needle rest

/-- The score accumulation of `findRelevantFiles` (server.js lines 212-232):
for each keyword, add 10 if the lower-cased file path contains it, plus the
number of regex matches in the lower-cased content. -/
def fileScore (keywords : List Str) (f : CodeFileRec) : Nat :=
  keywords.foldl
    (fun score keyword =>
      (if strIncludes (lower keyword) (lower f.file_path) then score + 10 else score) +
        countOccur (lower keyword) (lower f.content))
    0

/-- The comparator `(a, b) => b.score - a.score` (server.js line 235): a JS
stable sort with this comparator is the stable sort by descending score. -/
def scoreDescLe (a b : CodeFileRec × Nat) : Bool := decide (b.2 ≤ a.2)

/-- The comparator `(a, b) => (b.size || 0) - (a.size || 0)` (server.js line
244): stable sort by descending size. -/
def sizeDescLe (a b : CodeFileRec) : Bool := decide (b.size ≤ a.size)

/-- `findRelevantFiles` (server.js lines 209-246).  The source attaches the
score to each returned file (`{ ...file, score }`); the embedding returns the
underlying files, which is what every caller uses. -/
def findRelevantFiles (files : List CodeFileRec) (question : Str) : List CodeFileRec :=
  let keywords := extractKeywords question
  let scoredFiles := files.map (fun f => (f, fileScore keywords f))
  let sorted := scoredFiles.mergeSort scoreDescLe
  let matched := ((sorted.filter (fun p => decide (0 < p.2))).take 10).map Prod.fst
  if 0 < matched.length then matched
  else (files.mergeSort sizeDescLe).take 8

/-- `content.substring(0, 3000) + '\n... (truncated)'` for files longer than
3000 characters (server.js lines 280-282). -/
def truncateContent (content : Str) : Str :=
  if 3000 < content.length then content.take 3000 ++ "\n... (truncated)".toList
  else content

/-- `buildContext` (server.js lines 271-292). -/
def buildContext (files : List CodeFileRec) : Str :=
  if files.length = 0 then "No relevant files found.".toList
  else
    files.enum.foldl
      (fun ctx p =>
        ctx ++ "File ".toList ++ (Nat.repr (p.1 + 1)).toList ++ ": ".toList ++
          p.2.file_path ++ "\nLanguage: ".toList ++ p.2.language ++ "\n".toList ++
          "```".toList ++ p.2.language ++ "\n".toList ++
          truncateContent p.2.content ++ "\n```\n\n".toList)
      "Relevant code files:\n\n".toList

/-- `createPrompt` (server.js lines 300-306). -/
def createPrompt (question context : Str) : Str :=
  "Question: ".toList ++ question ++ "\n\n".toList ++ context ++
    "\n\nPlease analyze the code and answer the question. Provide specific file paths, line ranges, and code snippets.".toList

/-! ## fileProcessor.js -/

/-- The `CODE_EXTENSIONS` table (fileProcessor.js lines 6-35). -/
def codeExtensions : List (Str × Str) :=
  [(".js".toList, "javascript".toList), (".jsx".toList, "javascript".toList),
   (".ts".toList, "typescript".toList), (".tsx".toList, "typescript".toList),
   (".py".toList, "python".toList), (".java".toList, "java".toList),
   (".cpp".toList, "cpp".toList), (".c".toList, "c".toList),
   (".cs".toList, "csharp".toList), (".go".toList, "go".toList),
   (".rs".toList, "rust".toList), (".php".toList, "php".toList),
   (".rb".toList, "ruby".toList), (".swift".toList, "swift".toList),
   (".kt".toList, "kotlin".toList), (".scala".toList, "scala".toList),
   (".html".toList, "html".toList), (".css".toList, "css".toList),
   (".scss".toList, "scss".toList), (".json".toList, "json".toList),
   (".xml".toList, "xml".toList), (".yaml".toList, "yaml".toList),
   (".yml".toList, "yaml".toList), (".md".toList, "markdown".toList),
   (".sql".toList, "sql".toList), (".sh".toList, "bash".toList),
   (".vue".toList, "vue".toList), (".dart".toList, "dart".toList)]

/-- The `IGNORE_DIRS` list (fileProcessor.js lines 38-60). -/
def ignoreDirs : List Str :=
  ["node_modules".toList, ".git".toList, ".svn".toList, ".hg".toList,
   "dist".toList, "build".toList, "out".toList, "target".toList,
   "bin".toList, "obj".toList, ".next".toList, ".nuxt".toList,
   "coverage".toList, "__pycache__".toList, ".pytest_cache".toList,
   "venv".toList, "env".toList, ".venv".toList, ".idea".toList,
   ".vscode".toList, "vendor".toList]

/-- Node's `path.extname` on a basename: the portion from the last `.`,
empty when there is no dot or the only dot is the leading character. -/
def extname (basename : Str) : Str :=
  let tailAfter := basename.reverse.takeWhile (fun c => c != '.')
  if tailAfter.length + 1 < basename.length then '.' :: tailAfter.reverse
  else if tailAfter.length + 1 = basename.length then []
  else []

/-- `CODE_EXTENSIONS[ext] || 'text'` with `ext = path.extname(p).toLowerCase()`
(fileProcessor.js lines 101-102). -/
def languageOf (basename : Str) : Str :=
  ((codeExtensions.find? (fun p => p.1 == lower (extname basename))).map Prod.snd).getD
    ("text".toList)

/-- A file of the extracted/cloned directory tree handed to
`processCodeFiles`: its path relative to the scanned directory (as a list of
components), its `fs.statSync` size and its contents. -/
structure FsEntry where
  path : List Str
  size : Nat
  content : Str
deriving DecidableEq

/-- The selection performed by `glob('**/*.{js,...}', { ignore:
IGNORE_DIRS.map(d => '**/d/**'), nodir: true })` (fileProcessor.js lines
72-81): the filename must carry one of the (lower-case, matched
case-sensitively) code extensions, no component may be a dotfile (glob's
default `dot: false`), and no directory component may be an ignored
directory. -/
def globSelects (path : List Str) : Bool :=
  match path.getLast? with
  | none => false
  | some filename =>
    path.all (fun comp => match comp with | [] => false | c :: _ => c != '.') &&
    codeExtensions.any (fun p => p.1.isSuffixOf filename) &&
    path.dropLast.all (fun comp => !ignoreDirs.contains comp)

/-- `!content || !content.trim()` (fileProcessor.js line 97, database.js line
103): a JS string is falsy when empty, and its trim is falsy when every
character is whitespace. -/
def isBlank (s : Str) : Bool := s.all jsIsSpace

/-- A file as accumulated by `processCodeFiles` (fileProcessor.js lines
104-109). -/
structure ProcessedFile where
  relativePath : List Str
  content : Str
  language : Str
  size : Nat
deriving DecidableEq

/-- One iteration of the `for (const filePath of filePaths)` loop of
`processCodeFiles` (fileProcessor.js lines 83-117): skip files over 1 MB,
skip blank files, otherwise append the file and add its size. -/
def processStep (acc : List ProcessedFile × Nat) (e : FsEntry) : List ProcessedFile × Nat :=
  if 1024 * 1024 < e.size then acc
  else if isBlank e.content then acc
  else
    (acc.1 ++ [⟨e.path, e.content, languageOf (e.path.getLastD []), e.size⟩],
      acc.2 + e.size)

/-- `processCodeFiles` (fileProcessor.js lines 67-120), over the modelled
directory tree.  I/O errors on individual files (which the source catches
and skips) are not modelled. -/
def processCodeFiles (entries : List FsEntry) : List ProcessedFile × Nat :=
  (entries.filter (fun e => globSelects e.path)).foldl processStep ([], 0)

/-! ## database.js: the MongoDB persistence layer

MongoDB collections are lists of records.  Two sources of nondeterminism are
made explicit counters of the state: `nextId` generates the object ids Mongo
assigns to new `codefiles`/`questions` documents, and `now` is the model
clock read by `Date.now` defaults (each record creation advances it, so
creation times are strictly increasing, as millisecond timestamps of
sequential awaited requests are). -/

/-- A record of the `codebases` collection (database.js lines 29-36). -/
structure Codebase where
  _id : Str
  name : Str
  source : Str
  file_count : Nat
  total_size : Nat
  created_at : Nat
deriving DecidableEq

/-- One entry of a question's `file_references` array (the `references`
objects produced by the LLM, server.js lines 168-176). -/
structure FileRef where
  file : Str
  lineStart : Nat
  lineEnd : Nat
  snippet : Str
  explanation : Str
deriving DecidableEq

/-- A record of the `questions` collection (database.js lines 48-56). -/
structure QuestionRec where
  _id : Nat
  codebase_id : Str
  question : Str
  answer : Str
  file_references : List FileRef
  mermaid_code : Option Str
  tags : List Str
  created_at : Nat
deriving DecidableEq

/-- The state of the MongoDB database. -/
structure DbState where
  codebases : List Codebase
  codeFiles : List CodeFileRec
  questions : List QuestionRec
  nextId : Nat
  now : Nat
deriving DecidableEq

/-- `insertCodebase` (database.js lines 69-76).  Mongo enforces the primary
key: `save` rejects a duplicate `_id` with a duplicate-key error. -/
def insertCodebase (id name source : Str) (db : DbState) : Except Str DbState :=
  if db.codebases.any (fun c => c._id == id) then .error ("duplicate key".toList)
  else .ok { db with
    codebases := db.codebases ++ [⟨id, name, source, 0, 0, db.now⟩],
    now := db.now + 1 }

/-- `updateCodebaseStats` (database.js lines 78-83): `findByIdAndUpdate`
sets the two stats fields of the codebase with the given id. -/
def updateCodebaseStats (id : Str) (fileCount totalSize : Nat) (db : DbState) : DbState :=
  { db with codebases := db.codebases.map (fun c =>
      if c._id == id then { c with file_count := fileCount, total_size := totalSize }
      else c) }

/-- `getCodebase` (database.js lines 85-87). -/
def getCodebase (id : Str) (db : DbState) : Option Codebase :=
  db.codebases.find? (fun c => c._id == id)

/-- Descending `created_at` comparator for codebases (Mongo
`sort({ created_at: -1 })`). -/
def codebaseCreatedDescLe (a b : Codebase) : Bool := decide (b.created_at ≤ a.created_at)

/-- `getAllCodebases` (database.js lines 89-91). -/
def getAllCodebases (db : DbState) : List Codebase :=
  db.codebases.mergeSort codebaseCreatedDescLe

/-- `deleteCodebase` (database.js lines 93-98): first `deleteMany` removes
every code file and question of the codebase, then `findByIdAndDelete`
removes (and returns) the codebase itself, or returns `null`. -/
def deleteCodebase (id : Str) (db : DbState) : Option Codebase × DbState :=
  let db1 := { db with
    codeFiles := db.codeFiles.filter (fun f => f.codebase_id != id),
    questions := db.questions.filter (fun q => q.codebase_id != id) }
  match db1.codebases.find? (fun c => c._id == id) with
  | none => (none, db1)
  | some c => (some c, { db1 with codebases := db1.codebases.eraseP (fun c2 => c2._id == id) })

/-- `insertCodeFile` (database.js lines 101-116): blank content is skipped
(returns `null`), otherwise the record is saved under a fresh object id. -/
def insertCodeFile (codebaseId filePath content language : Str) (size : Nat)
    (db : DbState) : Option Nat × DbState :=
  if isBlank content then (none, db)
  else
    (some db.nextId,
      { db with
        codeFiles := db.codeFiles ++ [⟨db.nextId, codebaseId, filePath, content, language, size⟩],
        nextId := db.nextId + 1 })

/-- `getCodebaseFiles` (database.js lines 118-130). -/
def getCodebaseFiles (codebaseId : Str) (db : DbState) : List CodeFileRec :=
  db.codeFiles.filter (fun f => f.codebase_id == codebaseId)

/-- `insertQuestion` (database.js lines 133-144): saves the record (fresh
object id, empty tags, `created_at` defaulting to now) and returns the new
id (`{ lastInsertRowid: saved._id }`). -/
def insertQuestion (codebaseId question answer : Str) (fileReferences : List FileRef)
    (mermaidCode : Option Str) (db : DbState) : Nat × DbState :=
  (db.nextId,
    { db with
      questions := db.questions ++
        [⟨db.nextId, codebaseId, question, answer, fileReferences, mermaidCode, [], db.now⟩],
      nextId := db.nextId + 1,
      now := db.now + 1 })

/-- Descending `created_at` comparator for questions (Mongo
`sort({ created_at: -1 })`). -/
def questionCreatedDescLe (a b : QuestionRec) : Bool := decide (b.created_at ≤ a.created_at)

/-- `getRecentQuestions` (database.js lines 146-161). -/
def getRecentQuestions (codebaseId : Str) (limit : Nat) (db : DbState) : List QuestionRec :=
  ((db.questions.filter (fun q => q.codebase_id == codebaseId)).mergeSort
      questionCreatedDescLe).take limit

/-- `addTagToQuestion` (database.js lines 163-169): `findByIdAndUpdate` with
`$addToSet` appends the tag to the matching question unless already present. -/
def addTagToQuestion (questionId : Nat) (tagName : Str) (db : DbState) : DbState :=
  { db with questions := db.questions.map (fun q =>
      if q._id == questionId then
        (if q.tags.contains tagName then q else { q with tags := q.tags ++ [tagName] })
      else q) }

/-- `deleteOldQuestions` (database.js lines 171-183): sort the codebase's
questions newest first, skip `keepCount`, and `deleteMany` the rest by id.
Returns the deleted count. -/
def deleteOldQuestions (codebaseId : Str) (keepCount : Nat) (db : DbState) : Nat × DbState :=
  let sorted := (db.questions.filter (fun q => q.codebase_id == codebaseId)).mergeSort
    questionCreatedDescLe
  let idsToDelete := (sorted.drop keepCount).map (fun q => q._id)
  if 0 < idsToDelete.length then
    (idsToDelete.length,
      { db with questions := db.questions.filter (fun q => !idsToDelete.contains q._id) })
  else (0, db)

/-- `searchQuestions` (database.js lines 185-205).  The `$regex` search with
`$options: 'i'` is modelled as case-insensitive containment (the search term
is treated as literal text). -/
def searchQuestions (codebaseId searchTerm : Str) (db : DbState) : List QuestionRec :=
  ((db.questions.filter (fun q =>
      q.codebase_id == codebaseId &&
        (strIncludes (lower searchTerm) (lower q.question) ||
          strIncludes (lower searchTerm) (lower q.answer)))).mergeSort
    questionCreatedDescLe)

/-- `connectDatabase`'s module-level state (database.js line 4) together
with a model count of how many times `mongoose.connect` has actually run. -/
structure ConnState where
  isConnected : Bool
  connectCount : Nat
deriving DecidableEq

/-- `connectDatabase` (database.js lines 6-26): return at once when already
connected; otherwise fail without `MONGODB_URI`, else connect and set the
flag.  (A network failure of `mongoose.connect` itself is not modelled.) -/
def connectDatabase (mongoUri : Option Str) (st : ConnState) : Except Str ConnState :=
  if st.isConnected then .ok st
  else
    match mongoUri with
    | none => .error ("MONGODB_URI is not defined in environment variables".toList)
    | some _ => .ok { isConnected := true, connectCount := st.connectCount + 1 }

/-! ## aiService (second document of server.js): the OpenAI client wrapper -/

/-- The OpenAI client handle constructed by `new OpenAI({ apiKey })`
(server.js lines 108-110). -/
structure OpenAIClient where
  apiKey : Str
deriving DecidableEq

/-- `getOpenAIClient` (server.js lines 103-113) over the module-level
`openaiClient` slot (server.js line 101).  Returns the client together with
the new value of the slot.  A set-but-empty `OPENAI_API_KEY` is falsy in JS,
hence also rejected. -/
def getOpenAIClient (apiKeyEnv : Option Str) (slot : Option OpenAIClient) :
    Except Str (OpenAIClient × Option OpenAIClient) :=
  match slot with
  | some c => .ok (c, some c)
  | none =>
    match apiKeyEnv with
    | none => .error ("OPENAI_API_KEY is not set in environment variables. Please add it to your .env file.".toList)
    | some k =>
      if k.isEmpty then
        .error ("OPENAI_API_KEY is not set in environment variables. Please add it to your .env file.".toList)
      else .ok (⟨k⟩, some ⟨k⟩)

/-- The JSON object the LLM is instructed to return (server.js lines
164-177): `mermaidCode` and `references` may be absent. -/
structure LlmAnswer where
  answer : Str
  mermaidCode : Option Str
  references : Option (List FileRef)
deriving DecidableEq

/-- `answerQuestion` (server.js lines 121-201).  The external
`openai.chat.completions.create` call plus `JSON.parse` of its content is
the oracle `llm : Str → Option LlmAnswer`, applied to the prompt; `none`
models a failed call or unparseable response. -/
def answerQuestion (llm : Str → Option LlmAnswer) (codebaseId question : Str)
    (db : DbState) : Except Str (Str × Option Str × List FileRef) :=
  let files := getCodebaseFiles codebaseId db
  if files.length = 0 then .error ("Failed to answer question: No files found in codebase".toList)
  else
    let relevantFiles := findRelevantFiles files question
    let context := buildContext relevantFiles
    let prompt := createPrompt question context
    match llm prompt with
    | none => .error ("Failed to answer question".toList)
    | some r => .ok (r.answer, r.mermaidCode, r.references.getD [])

/-! ## question.js: POST /api/question/ask -/

/-- The request body of POST /api/question/ask (question.js line 10).
Absent JSON fields are `none`. -/
structure AskRequest where
  codebaseId : Option Str
  question : Option Str
  tags : Option (List Str)
deriving DecidableEq

/-- The JSON response of the ask endpoint: `ok` is the 200 `success: true`
body (question.js lines 46-53), `err` a `success: false` body with its HTTP
status. -/
inductive AskResponse where
  | ok (questionId : Nat) (answer : Str) (mermaidCode : Option Str)
      (fileReferences : List FileRef)
  | err (status : Nat) (error : Str)
deriving DecidableEq

/-- JS falsiness of an optional string: absent or empty. -/
def jsStrFalsy : Option Str → Bool
  | none => true
  | some s => s.isEmpty

/-- The tag loop of the ask handler (question.js lines 35-41): when a tags
array was sent, each tag with non-empty trim is added to the new question. -/
def applyTags (tags : Option (List Str)) (questionId : Nat) (db : DbState) : DbState :=
  match tags with
  | some ts =>
    ts.foldl
      (fun d tag =>
        if (jsTrim tag).isEmpty then d else addTagToQuestion questionId (jsTrim tag) d)
      db
  | none => db

/-- The `router.post('/ask')` handler (question.js lines 8-62): validate,
call `answerQuestion`, save the question, add the trimmed non-empty tags,
prune to the last 10 questions, respond. -/
def askHandler (llm : Str → Option LlmAnswer) (req : AskRequest) (db : DbState) :
    AskResponse × DbState :=
  if jsStrFalsy req.codebaseId || jsStrFalsy req.question then
    (.err 400 ("Codebase ID and question are required".toList), db)
  else
    let codebaseId := req.codebaseId.getD []
    let question := req.question.getD []
    if (jsTrim question).length < 5 then
      (.err 400 ("Question must be at least 5 characters long".toList), db)
    else
      match answerQuestion llm codebaseId question db with
      | .error e => (.err 500 e, db)
      | .ok (answer, mermaidCode, fileReferences) =>
        let inserted := insertQuestion codebaseId question answer fileReferences mermaidCode db
        let db2 := applyTags req.tags inserted.1 inserted.2
        let db3 := (deleteOldQuestions codebaseId 10 db2).2
        (.ok inserted.1 answer mermaidCode fileReferences, db3)

/-! ## history.js: DELETE /api/history/:codebaseId -/

/-- The `router.delete('/:codebaseId')` handler (history.js lines 56-70):
`deleteCodebase`, then 404 when nothing was found, else 200.  The result is
the pair (HTTP status, `success` flag) with the new database state. -/
def deleteSessionHandler (codebaseId : Str) (db : DbState) : (Nat × Bool) × DbState :=
  let r := deleteCodebase codebaseId db
  match r.1 with
  | none => ((404, false), r.2)
  | some _ => ((200, true), r.2)

/-! ## upload.js: the three ingestion endpoints (database effect) -/

/-- `path.join` of relative components into the stored `file_path`. -/
def joinPath (comps : List Str) : Str := (comps.intersperse ("/".toList)).flatten

/-- The common database phase of the ingestion endpoints (upload.js lines
90-102, 174-186, 290-302): insert the codebase under the freshly generated
UUID, insert every processed file, then write the stats. -/
def ingestCodebase (uuid name source : Str) (files : List ProcessedFile) (totalSize : Nat)
    (db : DbState) : Except Str DbState :=
  match insertCodebase uuid name source db with
  | .error e => .error e
  | .ok db1 =>
    let db2 := files.foldl
      (fun d f => (insertCodeFile uuid (joinPath f.relativePath) f.content f.language f.size d).2)
      db1
    .ok (updateCodebaseStats uuid files.length totalSize db2)

/-- Database effect of `router.post('/zip')` (upload.js lines 61-129):
process the extracted tree, then ingest under the fresh `codebaseId`. -/
def uploadZipDb (uuid originalname : Str) (entries : List FsEntry) (db : DbState) :
    Except Str DbState :=
  let processed := processCodeFiles entries
  ingestCodebase uuid originalname ("upload".toList) processed.1 processed.2 db

/-- Database effect of `router.post('/github')` (upload.js lines 132-204). -/
def uploadGithubDb (uuid repoName : Str) (entries : List FsEntry) (db : DbState) :
    Except Str DbState :=
  let processed := processCodeFiles entries
  ingestCodebase uuid repoName ("github".toList) processed.1 processed.2 db

/-- `files.map(f => ({ ...f, relativePath: prefix + '/' + f.relativePath }))`
(upload.js lines 264-271). -/
def prefixFiles (pre : Str) (files : List ProcessedFile) : List ProcessedFile :=
  files.map (fun f => { f with relativePath := pre :: f.relativePath })

/-- Database effect of `router.post('/github-split')` (upload.js lines
207-323): process both trees, prefix the paths, reject when no file was
found, else ingest the merged list as one codebase. -/
def uploadGithubSplitDb (uuid combinedName : Str) (frontendEntries backendEntries : List FsEntry)
    (db : DbState) : Except Str DbState :=
  let frontendResult := processCodeFiles frontendEntries
  let backendResult := processCodeFiles backendEntries
  let allFiles := prefixFiles ("frontend".toList) frontendResult.1 ++
    prefixFiles ("backend".toList) backendResult.1
  let totalSize := frontendResult.2 + backendResult.2
  if allFiles.length = 0 then
    .error ("No processable code files found in either repository. Make sure the repos are not empty and contain supported code files.".toList)
  else ingestCodebase uuid combinedName ("github-split".toList) allFiles totalSize db

/-! ## Inventory of the persistence layer (for the CRUD count) -/

/-- The four CRUD operation kinds. -/
inductive CrudKind where
  | create | read | update | delete
deriving DecidableEq

/-- The three record collections of database.js (lines 59-61). -/
inductive Collection where
  | codebases | codeFiles | questions
deriving DecidableEq

/-- The data operations exported by database.js (lines 69-205), each with
its CRUD kind and the collections it touches.  `connectDatabase` and
`initDatabase` manage the connection and move no records. -/
def dbOperations : List (String × CrudKind × List Collection) :=
  [("insertCodebase", CrudKind.create, [Collection.codebases]),
   ("updateCodebaseStats", CrudKind.update, [Collection.codebases]),
   ("getCodebase", CrudKind.read, [Collection.codebases]),
   ("getAllCodebases", CrudKind.read, [Collection.codebases]),
   ("deleteCodebase", CrudKind.delete,
     [Collection.codebases, Collection.codeFiles, Collection.questions]),
   ("insertCodeFile", CrudKind.create, [Collection.codeFiles]),
   ("getCodebaseFiles", CrudKind.read, [Collection.codeFiles]),
   ("insertQuestion", CrudKind.create, [Collection.questions]),
   ("getRecentQuestions", CrudKind.read, [Collection.questions]),
   ("addTagToQuestion", CrudKind.update, [Collection.questions]),
   ("deleteOldQuestions", CrudKind.delete, [Collection.questions]),
   ("searchQuestions", CrudKind.read, [Collection.questions])]

/-! ## Specification-level definitions (from the claims' wording) -/

/-- From the wording of the relevance claim: the score of one keyword against
a file is the number of occurrences of the keyword in the file's lower-cased
content, plus 10 if the file's lower-cased path contains the keyword. -/
def keywordScore (kw : Str) (f : CodeFileRec) : Nat :=
  countOccur (lower kw) (lower f.content) +
    (if strIncludes (lower kw) (lower f.file_path) then 10 else 0)

/-- From the wording of the relevance claim: a file's score is the sum of its
keyword scores over all extracted keywords. -/
def specScore (keywords : List Str) (f : CodeFileRec) : Nat :=
  (keywords.map (fun kw => keywordScore kw f)).sum

/-- From the invariant claim's wording: all codebase records have pairwise
distinct primary keys `_id`. -/
def uniqueCodebaseIds (db : DbState) : Prop :=
  (db.codebases.map (fun c => c._id)).Nodup

instance (db : DbState) : Decidable (uniqueCodebaseIds db) := by
  unfold uniqueCodebaseIds
  exact List.nodupDecidable _

/-- Well-formedness of the modelled database state, guaranteed by MongoDB
for every reachable state: object ids of stored questions were generated
before `nextId` and are pairwise distinct, and stored creation timestamps
precede the current clock. -/
def DbWF (db : DbState) : Prop :=
  (∀ q ∈ db.questions, q._id < db.nextId ∧ q.created_at < db.now) ∧
  (db.questions.map (fun q => q._id)).Nodup

instance (db : DbState) : Decidable (DbWF db) := by
  unfold DbWF
  exact instDecidableAnd

/-- A question-record transformation that can only change the `tags` field
(the shape of every `$addToSet` update of the ask handler's tag loop). -/
def preservesQuestionFields (g : QuestionRec → QuestionRec) : Prop :=
  ∀ qr : QuestionRec, (g qr)._id = qr._id ∧ (g qr).codebase_id = qr.codebase_id ∧
    (g qr).question = qr.question ∧ (g qr).answer = qr.answer ∧
    (g qr).file_references = qr.file_references ∧ (g qr).mermaid_code = qr.mermaid_code ∧
    (g qr).created_at = qr.created_at

/-! ### Concrete fixtures used by witness theorems -/

/-- Witness fixture: a database holding one code file of codebase `cb`. -/
def wDb : DbState :=
  ⟨[], [⟨0, "cb".toList, "a.js".toList, "let a".toList, "javascript".toList, 5⟩], [], 1, 1⟩

/-- Witness fixture: a valid ask request for codebase `cb`. -/
def wReq : AskRequest := ⟨some ("cb".toList), some ("hello".toList), none⟩

/-- Witness fixture: an LLM oracle that always answers. -/
def wLlm : Str → Option LlmAnswer := fun _ => some ⟨"ans".toList, none, none⟩

/-- Witness fixture: a database holding one stored question of codebase
`cb`. -/
def wDb10 : DbState :=
  ⟨[], [], [⟨0, "cb".toList, "q".toList, "a".toList, [], none, [], 0⟩], 1, 1⟩

/-! ## Theorems -/

lemma mem_filter_bne {l : List Str} {x w : Str} :
    w ∈ l.filter (fun v => v != x) ↔ w ∈ l ∧ w ≠ x := by
  simp [List.mem_filter]

lemma dedupFirst_nodup (l : List Str) : (dedupFirst l).Nodup := by
  induction l with
  | nil => simp [dedupFirst]
  | cons w ws ih =>
    simp only [dedupFirst, List.nodup_cons]
    constructor
    · intro hmem
      rcases mem_filter_bne.mp hmem with ⟨-, hne⟩
      exact hne rfl
    · exact List.Nodup.filter _ ih

lemma mem_dedupFirst {l : List Str} {w : Str} : w ∈ dedupFirst l ↔ w ∈ l := by
  induction l with
  | nil => simp [dedupFirst]
  | cons x xs ih =>
    simp only [dedupFirst, List.mem_cons, mem_filter_bne, ih]
    constructor
    · rintro (rfl | ⟨h, -⟩)
      · exact .inl rfl
      · exact .inr h
    · rintro (rfl | h)
      · exact .inl rfl
      · by_cases hx : w = x
        · exact .inl hx
        · exact .inr ⟨h, hx⟩

lemma foldl_score_eq (c : Str → Bool) (m : Str → Nat) :
    ∀ (l : List Str) (a : Nat),
      l.foldl (fun s kw => (if c kw then s + 10 else s) + m kw) a =
        a + (l.map (fun kw => m kw + if c kw then 10 else 0)).sum := by
  intro l
  induction l with
  | nil => simp
  | cons kw kws ih =>
    intro a
    simp only [List.foldl_cons, List.map_cons, List.sum_cons, ih]
    by_cases h : c kw <;> simp [h] <;> omega

lemma fileScore_eq_specScore (kws : List Str) (f : CodeFileRec) :
    fileScore kws f = specScore kws f := by
  simp only [fileScore, specScore, keywordScore]
  rw [foldl_score_eq (fun kw => strIncludes (lower kw) (lower f.file_path))
    (fun kw => countOccur (lower kw) (lower f.content)) kws 0]
  omega

lemma scoreDescLe_trans :
    ∀ a b c : CodeFileRec × Nat, scoreDescLe a b → scoreDescLe b c → scoreDescLe a c := by
  intro a b c
  simp only [scoreDescLe, decide_eq_true_eq]
  omega

lemma scoreDescLe_total : ∀ a b : CodeFileRec × Nat, scoreDescLe a b || scoreDescLe b a := by
  intro a b
  simp only [scoreDescLe, Bool.or_eq_true, decide_eq_true_eq]
  omega

lemma sizeDescLe_trans :
    ∀ a b c : CodeFileRec, sizeDescLe a b → sizeDescLe b c → sizeDescLe a c := by
  intro a b c
  simp only [sizeDescLe, decide_eq_true_eq]
  omega

lemma sizeDescLe_total : ∀ a b : CodeFileRec, sizeDescLe a b || sizeDescLe b a := by
  intro a b
  simp only [sizeDescLe, Bool.or_eq_true, decide_eq_true_eq]
  omega

/-- Every pair reached through the scored, sorted, filtered, truncated lists
of `findRelevantFiles` carries the score of its own file. -/
lemma mem_scored_snd {files : List CodeFileRec} {kws : List Str} {p : CodeFileRec × Nat}
    (hp : p ∈ files.map (fun f => (f, fileScore kws f))) :
    p.2 = fileScore kws p.1 ∧ p.1 ∈ files := by
  rcases List.mem_map.mp hp with ⟨f, hf, rfl⟩
  exact ⟨rfl, hf⟩

/-- When some file scores positively, `findRelevantFiles` takes the matched
branch. -/
lemma findRelevantFiles_eq_matched {files : List CodeFileRec} {q : Str}
    (h : ∃ f ∈ files, 0 < fileScore (extractKeywords q) f) :
    findRelevantFiles files q =
      (((((files.map (fun f => (f, fileScore (extractKeywords q) f))).mergeSort
          scoreDescLe).filter (fun p => decide (0 < p.2))).take 10).map Prod.fst) := by
  obtain ⟨f, hf, hpos⟩ := h
  have hmem : (f, fileScore (extractKeywords q) f) ∈
      (files.map (fun f => (f, fileScore (extractKeywords q) f))).mergeSort scoreDescLe :=
    List.mem_mergeSort.mpr (List.mem_map_of_mem _ hf)
  have hfil : (f, fileScore (extractKeywords q) f) ∈
      (((files.map (fun f => (f, fileScore (extractKeywords q) f))).mergeSort
        scoreDescLe).filter (fun p => decide (0 < p.2))) :=
    List.mem_filter.mpr ⟨hmem, by simpa using hpos⟩
  have hlen : 0 < ((((files.map (fun f => (f, fileScore (extractKeywords q) f))).mergeSort
      scoreDescLe).filter (fun p => decide (0 < p.2))).take 10).length := by
    rw [List.length_take]
    exact lt_min (by omega) (List.length_pos.mpr (List.ne_nil_of_mem hfil))
  simp only [findRelevantFiles]
  rw [if_pos (by simpa using hlen)]

/-- When every file scores zero, `findRelevantFiles` falls back to the files
sorted by size. -/
lemma findRelevantFiles_eq_fallback {files : List CodeFileRec} {q : Str}
    (h : ∀ f ∈ files, fileScore (extractKeywords q) f = 0) :
    findRelevantFiles files q = (files.mergeSort sizeDescLe).take 8 := by
  have hfil : (((files.map (fun f => (f, fileScore (extractKeywords q) f))).mergeSort
      scoreDescLe).filter (fun p => decide (0 < p.2))) = [] := by
    rw [List.filter_eq_nil_iff]
    intro p hp
    rcases mem_scored_snd (List.mem_mergeSort.mp hp) with ⟨h2, h1⟩
    simp [h2, h p.1 h1]
  simp only [findRelevantFiles, hfil]
  rw [if_neg (by simp)]

/-- C1: with at least one positively scoring file, `findRelevantFiles`
returns the at most 10 highest-scoring files (scored as occurrence count in
the lower-cased content plus 10 per keyword contained in the lower-cased
path) in descending score order; otherwise it returns the at most 8 largest
files by descending size. -/
theorem findRelevantFiles_correct (files : List CodeFileRec) (q : Str)
    (hne : files ≠ []) :
    ((∃ f ∈ files, 0 < specScore (extractKeywords q) f) →
      (findRelevantFiles files q).length =
          min 10 (files.countP (fun f => decide (0 < specScore (extractKeywords q) f))) ∧
        (∀ f ∈ findRelevantFiles files q, f ∈ files ∧ 0 < specScore (extractKeywords q) f) ∧
        (findRelevantFiles files q).Pairwise
          (fun a b => specScore (extractKeywords q) b ≤ specScore (extractKeywords q) a) ∧
        (∀ g ∈ files, g ∉ findRelevantFiles files q → ∀ f ∈ findRelevantFiles files q,
          specScore (extractKeywords q) g ≤ specScore (extractKeywords q) f)) ∧
    ((∀ f ∈ files, specScore (extractKeywords q) f = 0) →
      (findRelevantFiles files q).length = min 8 files.length ∧
        (∀ f ∈ findRelevantFiles files q, f ∈ files) ∧
        (findRelevantFiles files q).Pairwise (fun a b => b.size ≤ a.size) ∧
        (∀ g ∈ files, g ∉ findRelevantFiles files q → ∀ f ∈ findRelevantFiles files q,
          g.size ≤ f.size)) := by
  constructor
  · -- matched branch
    intro hpos
    have hpos' : ∃ f ∈ files, 0 < fileScore (extractKeywords q) f := by
      simpa only [fileScore_eq_specScore] using hpos
    rw [findRelevantFiles_eq_matched hpos']
    set kws := extractKeywords q with hkws
    set scored := files.map (fun f => (f, fileScore kws f)) with hscored
    set sorted := scored.mergeSort scoreDescLe with hsorted
    set fil := sorted.filter (fun p => decide (0 < p.2)) with hfil
    have hmemscored : ∀ p ∈ scored, p.2 = fileScore kws p.1 ∧ p.1 ∈ files := fun p hp =>
      mem_scored_snd hp
    have hmemfil : ∀ p ∈ fil, p.2 = fileScore kws p.1 ∧ p.1 ∈ files ∧ 0 < p.2 := by
      intro p hp
      have h1 := List.mem_filter.mp hp
      rcases hmemscored p (List.mem_mergeSort.mp h1.1) with ⟨ha, hb⟩
      exact ⟨ha, hb, by simpa using h1.2⟩
    have hsortedpw : sorted.Pairwise (fun a b => scoreDescLe a b = true) :=
      List.sorted_mergeSort scoreDescLe_trans scoreDescLe_total scored
    have hfilpw : fil.Pairwise (fun a b => scoreDescLe a b = true) :=
      List.Pairwise.sublist (List.filter_sublist sorted) hsortedpw
    refine ⟨?_, ?_, ?_, ?_⟩
    · -- length
      rw [List.length_map, List.length_take, hfil, ← List.countP_eq_length_filter,
        (List.mergeSort_perm scored scoreDescLe).countP_eq, hscored, List.countP_map]
      simp only [fileScore_eq_specScore]
      rfl
    · -- membership and positivity
      intro f hf
      rcases List.mem_map.mp hf with ⟨p, hp, rfl⟩
      rcases hmemfil p (List.mem_of_mem_take hp) with ⟨ha, hb, hc⟩
      rw [← fileScore_eq_specScore, ← ha]
      exact ⟨hb, hc⟩
    · -- descending order
      rw [List.pairwise_map]
      refine List.Pairwise.imp_of_mem ?_
        (List.Pairwise.sublist (List.take_sublist 10 fil) hfilpw)
      intro a b ha hb hle
      have ha' := (hmemfil a (List.mem_of_mem_take ha)).1
      have hb' := (hmemfil b (List.mem_of_mem_take hb)).1
      rw [← fileScore_eq_specScore, ← fileScore_eq_specScore, ← ha', ← hb']
      simpa [scoreDescLe] using hle
    · -- the returned files are the highest-scoring ones
      intro g hg hgout f hf
      rcases List.mem_map.mp hf with ⟨pf, hpf, rfl⟩
      have hpf2 := (hmemfil pf (List.mem_of_mem_take hpf)).1
      by_cases hgz : 0 < fileScore kws g
      · have hgfil : (g, fileScore kws g) ∈ fil :=
          List.mem_filter.mpr
            ⟨List.mem_mergeSort.mpr (List.mem_map_of_mem _ hg), by simpa using hgz⟩
        have hsplit : fil = fil.take 10 ++ fil.drop 10 := (List.take_append_drop 10 fil).symm
        have hgdrop : (g, fileScore kws g) ∈ fil.drop 10 := by
          rcases (List.mem_append.mp (hsplit ▸ hgfil)) with h | h
          · exact absurd (List.mem_map_of_mem Prod.fst h) hgout
          · exact h
        have hpw2 : ∀ a ∈ fil.take 10, ∀ b ∈ fil.drop 10, scoreDescLe a b = true :=
          (List.pairwise_append.mp (hsplit ▸ hfilpw)).2.2
        have := hpw2 pf hpf (g, fileScore kws g) hgdrop
        rw [← fileScore_eq_specScore, ← fileScore_eq_specScore, ← hpf2]
        simpa [scoreDescLe] using this
      · rw [← fileScore_eq_specScore, ← fileScore_eq_specScore, ← hpf2]
        omega
  · -- fallback branch
    intro hzero
    have hzero' : ∀ f ∈ files, fileScore (extractKeywords q) f = 0 := by
      simpa only [fileScore_eq_specScore] using hzero
    rw [findRelevantFiles_eq_fallback hzero']
    have hsortedpw : (files.mergeSort sizeDescLe).Pairwise (fun a b => sizeDescLe a b = true) :=
      List.sorted_mergeSort sizeDescLe_trans sizeDescLe_total files
    refine ⟨?_, ?_, ?_, ?_⟩
    · rw [List.length_take, List.length_mergeSort]
    · intro f hf
      exact List.mem_mergeSort.mp (List.mem_of_mem_take hf)
    · refine List.Pairwise.imp_of_mem ?_
        (List.Pairwise.sublist (List.take_sublist 8 _) hsortedpw)
      intro a b _ _ hle
      simpa [sizeDescLe] using hle
    · intro g hg hgout f hf
      have hgsorted : g ∈ files.mergeSort sizeDescLe := List.mem_mergeSort.mpr hg
      have hsplit : files.mergeSort sizeDescLe =
          (files.mergeSort sizeDescLe).take 8 ++ (files.mergeSort sizeDescLe).drop 8 :=
        (List.take_append_drop 8 _).symm
      have hgdrop : g ∈ (files.mergeSort sizeDescLe).drop 8 := by
        rcases List.mem_append.mp (hsplit ▸ hgsorted) with h | h
        · exact absurd h hgout
        · exact h
      have hpw2 : ∀ a ∈ (files.mergeSort sizeDescLe).take 8,
          ∀ b ∈ (files.mergeSort sizeDescLe).drop 8, sizeDescLe a b = true :=
        (List.pairwise_append.mp (hsplit ▸ hsortedpw)).2.2
      simpa [sizeDescLe] using hpw2 f hf g hgdrop

/-- Witness for C1 at a concrete one-file codebase and question. -/
theorem findRelevantFiles_correct_witness :
    ([(⟨0, "cb".toList, "server.js".toList, "server code".toList, "javascript".toList, 5⟩ :
        CodeFileRec)] ≠ []) ∧
    ((∃ f ∈ [(⟨0, "cb".toList, "server.js".toList, "server code".toList, "javascript".toList, 5⟩ :
          CodeFileRec)],
        0 < specScore (extractKeywords ("where is the server".toList)) f) →
      (findRelevantFiles
          [⟨0, "cb".toList, "server.js".toList, "server code".toList, "javascript".toList, 5⟩]
          ("where is the server".toList)).length =
          min 10 ([(⟨0, "cb".toList, "server.js".toList, "server code".toList,
              "javascript".toList, 5⟩ : CodeFileRec)].countP
            (fun f => decide (0 < specScore (extractKeywords ("where is the server".toList)) f))) ∧
        (∀ f ∈ findRelevantFiles
            [⟨0, "cb".toList, "server.js".toList, "server code".toList, "javascript".toList, 5⟩]
            ("where is the server".toList),
          f ∈ [(⟨0, "cb".toList, "server.js".toList, "server code".toList, "javascript".toList,
              5⟩ : CodeFileRec)] ∧
            0 < specScore (extractKeywords ("where is the server".toList)) f) ∧
        (findRelevantFiles
            [⟨0, "cb".toList, "server.js".toList, "server code".toList, "javascript".toList, 5⟩]
            ("where is the server".toList)).Pairwise
          (fun a b => specScore (extractKeywords ("where is the server".toList)) b ≤
            specScore (extractKeywords ("where is the server".toList)) a) ∧
        (∀ g ∈ [(⟨0, "cb".toList, "server.js".toList, "server code".toList, "javascript".toList,
            5⟩ : CodeFileRec)],
          g ∉ findRelevantFiles
              [⟨0, "cb".toList, "server.js".toList, "server code".toList, "javascript".toList, 5⟩]
              ("where is the server".toList) →
            ∀ f ∈ findRelevantFiles
                [⟨0, "cb".toList, "server.js".toList, "server code".toList, "javascript".toList,
                  5⟩]
                ("where is the server".toList),
              specScore (extractKeywords ("where is the server".toList)) g ≤
                specScore (extractKeywords ("where is the server".toList)) f)) ∧
    ((∀ f ∈ [(⟨0, "cb".toList, "server.js".toList, "server code".toList, "javascript".toList,
        5⟩ : CodeFileRec)],
        specScore (extractKeywords ("where is the server".toList)) f = 0) →
      (findRelevantFiles
          [⟨0, "cb".toList, "server.js".toList, "server code".toList, "javascript".toList, 5⟩]
          ("where is the server".toList)).length =
          min 8 [(⟨0, "cb".toList, "server.js".toList, "server code".toList, "javascript".toList,
            5⟩ : CodeFileRec)].length ∧
        (∀ f ∈ findRelevantFiles
            [⟨0, "cb".toList, "server.js".toList, "server code".toList, "javascript".toList, 5⟩]
            ("where is the server".toList),
          f ∈ [(⟨0, "cb".toList, "server.js".toList, "server code".toList, "javascript".toList,
            5⟩ : CodeFileRec)]) ∧
        (findRelevantFiles
            [⟨0, "cb".toList, "server.js".toList, "server code".toList, "javascript".toList, 5⟩]
            ("where is the server".toList)).Pairwise (fun a b => b.size ≤ a.size) ∧
        (∀ g ∈ [(⟨0, "cb".toList, "server.js".toList, "server code".toList, "javascript".toList,
            5⟩ : CodeFileRec)],
          g ∉ findRelevantFiles
              [⟨0, "cb".toList, "server.js".toList, "server code".toList, "javascript".toList, 5⟩]
              ("where is the server".toList) →
            ∀ f ∈ findRelevantFiles
                [⟨0, "cb".toList, "server.js".toList, "server code".toList, "javascript".toList,
                  5⟩]
                ("where is the server".toList),
              g.size ≤ f.size)) :=
  ⟨List.cons_ne_nil _ _,
    findRelevantFiles_correct
      [⟨0, "cb".toList, "server.js".toList, "server code".toList, "javascript".toList, 5⟩]
      ("where is the server".toList) (List.cons_ne_nil _ _)⟩

/-- C2: `extractKeywords` returns a duplicate-free list consisting exactly of
the lower-cased words of the question (non-word characters replaced by
spaces, split on whitespace) of length greater than 2 that are not stop
words; no keyword appears twice. -/
theorem extractKeywords_correct (q : Str) :
    (extractKeywords q).Nodup ∧
    ∀ w : Str, w ∈ extractKeywords q ↔
      (w ∈ jsSplitWs (replaceNonWordBySpace (lower q)) ∧ 2 < w.length ∧ w ∉ stopWords) := by
  refine ⟨dedupFirst_nodup _, fun w => ?_⟩
  rw [extractKeywords, mem_dedupFirst, extractKeywordsWords, List.mem_filter]
  simp [and_assoc]

/-- The loop of `processCodeFiles` appends exactly the entries that are not
oversized and not blank, and accumulates their sizes. -/
lemma foldl_processStep (l : List FsEntry) (acc : List ProcessedFile × Nat) :
    (l.foldl processStep acc).1 =
      acc.1 ++ (l.filter (fun e => decide (e.size ≤ 1024 * 1024) && !isBlank e.content)).map
        (fun e => ⟨e.path, e.content, languageOf (e.path.getLastD []), e.size⟩) ∧
    (l.foldl processStep acc).2 =
      acc.2 + ((l.filter (fun e => decide (e.size ≤ 1024 * 1024) && !isBlank e.content)).map
        (fun e => e.size)).sum := by
  induction l generalizing acc with
  | nil => simp
  | cons e rest ih =>
    simp only [List.foldl_cons, List.filter_cons]
    by_cases hsz : 1024 * 1024 < e.size
    · have : (decide (e.size ≤ 1024 * 1024) && !isBlank e.content) = false := by
        simp [decide_eq_false (by omega : ¬e.size ≤ 1024 * 1024)]
      rw [this]
      simp only [Bool.false_eq_true, if_false, processStep, if_pos hsz]
      exact ih acc
    · by_cases hbl : isBlank e.content
      · have : (decide (e.size ≤ 1024 * 1024) && !isBlank e.content) = false := by
          simp [hbl]
        rw [this]
        simp only [Bool.false_eq_true, if_false, processStep, if_neg hsz, if_pos hbl]
        exact ih acc
      · have : (decide (e.size ≤ 1024 * 1024) && !isBlank e.content) = true := by
          simp [hbl]; omega
        rw [this]
        simp only [if_true, processStep, if_neg hsz, if_neg hbl]
        rcases ih (acc.1 ++ [⟨e.path, e.content, languageOf (e.path.getLastD []), e.size⟩],
          acc.2 + e.size) with ⟨h1, h2⟩
        constructor
        · rw [h1]; simp
        · rw [h2]; simp [List.map_cons]; omega

/-- C3: every file returned by `processCodeFiles` carries a supported code
extension, lies outside every ignored directory, is at most 1 MB, and has
non-blank content; and the returned total size is the sum of the returned
files' sizes. -/
theorem processCodeFiles_correct (entries : List FsEntry) :
    (∀ f ∈ (processCodeFiles entries).1,
      codeExtensions.any (fun p => p.1.isSuffixOf (f.relativePath.getLastD [])) = true ∧
      (∀ comp ∈ f.relativePath.dropLast, comp ∉ ignoreDirs) ∧
      f.size ≤ 1024 * 1024 ∧
      isBlank f.content = false) ∧
    (processCodeFiles entries).2 = ((processCodeFiles entries).1.map (fun f => f.size)).sum := by
  rcases foldl_processStep (entries.filter (fun e => globSelects e.path)) ([], 0) with ⟨h1, h2⟩
  rw [processCodeFiles]
  constructor
  · intro f hf
    rw [h1] at hf
    simp only [List.nil_append] at hf
    rcases List.mem_map.mp hf with ⟨e, he, rfl⟩
    have hkept := List.of_mem_filter he
    have hglob := List.of_mem_filter (List.mem_of_mem_filter he)
    simp only [Bool.and_eq_true, decide_eq_true_eq, Bool.not_eq_true'] at hkept
    rw [globSelects] at hglob
    cases hpath : e.path.getLast? with
    | none => rw [hpath] at hglob; cases hglob
    | some filename =>
      rw [hpath] at hglob
      simp only [Bool.and_eq_true] at hglob
      rcases hglob with ⟨⟨-, hext⟩, hign⟩
      have hlastd : e.path.getLastD [] = filename := by
        rw [List.getLastD_eq_getLast?, hpath]; rfl
      refine ⟨by rw [hlastd]; exact hext, ?_, hkept.1, hkept.2⟩
      intro comp hcomp
      have := (List.all_eq_true.mp hign) comp hcomp
      simpa using this
  · rw [h2, h1]
    simp [List.map_map, Function.comp_def]

/-- C4: the persistence layer's data operations perform exactly the four
CRUD operation kinds (create, read, update, delete — each occurs and no
other kind exists) over exactly the three record collections (codebases,
code files, questions — each occurs). -/
theorem persistence_four_crud_three_collections :
    ((dbOperations.map (fun op => op.2.1)).dedup.length = 4 ∧
      CrudKind.create ∈ dbOperations.map (fun op => op.2.1) ∧
      CrudKind.read ∈ dbOperations.map (fun op => op.2.1) ∧
      CrudKind.update ∈ dbOperations.map (fun op => op.2.1) ∧
      CrudKind.delete ∈ dbOperations.map (fun op => op.2.1)) ∧
    ((dbOperations.map (fun op => op.2.2)).flatten.dedup.length = 3 ∧
      Collection.codebases ∈ (dbOperations.map (fun op => op.2.2)).flatten ∧
      Collection.codeFiles ∈ (dbOperations.map (fun op => op.2.2)).flatten ∧
      Collection.questions ∈ (dbOperations.map (fun op => op.2.2)).flatten) := by
  decide

/-- C6: the only long-lived in-process state behaves as claimed: a memoised
client (`getOpenAIClient` returns the cached handle unchanged on every call
after the first successful one, and it errors exactly when the key is absent
— or JS-falsy — at first construction) and a connection flag
(`connectDatabase` returns the state unchanged, in particular without
reconnecting, whenever `isConnected` is set). -/
theorem lazy_client_and_connection_flag :
    (∀ (env : Option Str) (c : OpenAIClient),
      getOpenAIClient env (some c) = .ok (c, some c)) ∧
    (∀ (env : Option Str) (slot : Option OpenAIClient) (c : OpenAIClient)
      (slot' : Option OpenAIClient),
      getOpenAIClient env slot = .ok (c, slot') →
        slot' = some c ∧ ∀ env2, getOpenAIClient env2 slot' = .ok (c, slot')) ∧
    (∀ env : Option Str,
      (∃ e, getOpenAIClient env none = .error e) ↔ (env = none ∨ env = some [])) ∧
    (∀ (uri : Option Str) (st : ConnState), st.isConnected = true →
      connectDatabase uri st = .ok st) := by
  refine ⟨fun env c => rfl, ?_, ?_, ?_⟩
  · intro env slot c slot' h
    match slot with
    | some c0 =>
      simp only [getOpenAIClient, Except.ok.injEq, Prod.mk.injEq] at h
      rcases h with ⟨rfl, rfl⟩
      exact ⟨rfl, fun env2 => rfl⟩
    | none =>
      match env with
      | none => simp [getOpenAIClient] at h
      | some k =>
        by_cases hk : k.isEmpty
        · simp [getOpenAIClient, hk] at h
        · simp only [getOpenAIClient, hk, Bool.false_eq_true, if_false,
            Except.ok.injEq, Prod.mk.injEq] at h
          rcases h with ⟨rfl, rfl⟩
          exact ⟨rfl, fun env2 => rfl⟩
  · intro env
    match env with
    | none => simp [getOpenAIClient]
    | some k =>
      by_cases hk : k.isEmpty
      · have : k = [] := List.isEmpty_iff.mp hk
        subst this
        simp [getOpenAIClient]
      · simp only [getOpenAIClient, hk, Bool.false_eq_true, if_false]
        constructor
        · rintro ⟨e, he⟩
          cases he
        · rintro (h | h)
          · cases h
          · rw [Option.some.injEq] at h
            subst h
            simp at hk
  · intro uri st h
    simp [connectDatabase, h]

/-- Witness for C6 at concrete environments and states. -/
theorem lazy_client_and_connection_flag_witness :
    getOpenAIClient (some ("key".toList)) (some ⟨"key".toList⟩) =
        .ok (⟨"key".toList⟩, some ⟨"key".toList⟩) ∧
    ((⟨true, 3⟩ : ConnState).isConnected = true ∧
      connectDatabase none ⟨true, 3⟩ = .ok ⟨true, 3⟩) :=
  ⟨lazy_client_and_connection_flag.1 (some ("key".toList)) ⟨"key".toList⟩,
    rfl, lazy_client_and_connection_flag.2.2.2 none ⟨true, 3⟩ rfl⟩

/-- C9: `deleteCodebase` removes every code file and question of the given
codebase id regardless of whether the codebase exists (the related-record
deletion precedes the existence check); when no codebase record carries the
id it returns `null`, leaves the codebases untouched, and the DELETE
/api/history/:codebaseId route responds 404 with `success: false` over that
already-pruned state. -/
theorem deleteCodebase_missing_correct (db : DbState) (id : Str)
    (h : ∀ c ∈ db.codebases, c._id ≠ id) :
    (∀ id2 : Str,
      (deleteCodebase id2 db).2.codeFiles =
          db.codeFiles.filter (fun f => f.codebase_id != id2) ∧
        (deleteCodebase id2 db).2.questions =
          db.questions.filter (fun q => q.codebase_id != id2)) ∧
    (deleteCodebase id db).1 = none ∧
    (deleteCodebase id db).2.codebases = db.codebases ∧
    deleteSessionHandler id db = ((404, false), (deleteCodebase id db).2) := by
  have hfind : db.codebases.find? (fun c => c._id == id) = none := by
    rw [List.find?_eq_none]
    intro c hc
    simpa using h c hc
  constructor
  · intro id2
    rw [deleteCodebase]
    cases hf : db.codebases.find? (fun c => c._id == id2) <;> simp
  · refine ⟨?_, ?_, ?_⟩
    · rw [deleteCodebase]; simp [hfind]
    · rw [deleteCodebase]; simp [hfind]
    · rw [deleteSessionHandler, deleteCodebase]; simp [hfind]

/-- Witness for C9: a database holding one code file and one question of a
codebase id for which no codebase record exists. -/
theorem deleteCodebase_missing_correct_witness :
    (∀ c ∈ (⟨[], [⟨0, "x".toList, "a.js".toList, "let a".toList, "javascript".toList, 5⟩],
        [⟨1, "x".toList, "q".toList, "a".toList, [], none, [], 0⟩], 2, 1⟩ : DbState).codebases,
      c._id ≠ "x".toList) ∧
    ((∀ id2 : Str,
      (deleteCodebase id2 (⟨[], [⟨0, "x".toList, "a.js".toList, "let a".toList,
          "javascript".toList, 5⟩], [⟨1, "x".toList, "q".toList, "a".toList, [], none, [], 0⟩],
          2, 1⟩ : DbState)).2.codeFiles =
          (⟨[], [⟨0, "x".toList, "a.js".toList, "let a".toList, "javascript".toList, 5⟩],
            [⟨1, "x".toList, "q".toList, "a".toList, [], none, [], 0⟩], 2, 1⟩ :
            DbState).codeFiles.filter (fun f => f.codebase_id != id2) ∧
        (deleteCodebase id2 (⟨[], [⟨0, "x".toList, "a.js".toList, "let a".toList,
            "javascript".toList, 5⟩], [⟨1, "x".toList, "q".toList, "a".toList, [], none, [], 0⟩],
            2, 1⟩ : DbState)).2.questions =
          (⟨[], [⟨0, "x".toList, "a.js".toList, "let a".toList, "javascript".toList, 5⟩],
            [⟨1, "x".toList, "q".toList, "a".toList, [], none, [], 0⟩], 2, 1⟩ :
            DbState).questions.filter (fun q => q.codebase_id != id2)) ∧
      (deleteCodebase ("x".toList) (⟨[], [⟨0, "x".toList, "a.js".toList, "let a".toList,
          "javascript".toList, 5⟩], [⟨1, "x".toList, "q".toList, "a".toList, [], none, [], 0⟩],
          2, 1⟩ : DbState)).1 = none ∧
      (deleteCodebase ("x".toList) (⟨[], [⟨0, "x".toList, "a.js".toList, "let a".toList,
          "javascript".toList, 5⟩], [⟨1, "x".toList, "q".toList, "a".toList, [], none, [], 0⟩],
          2, 1⟩ : DbState)).2.codebases =
        (⟨[], [⟨0, "x".toList, "a.js".toList, "let a".toList, "javascript".toList, 5⟩],
          [⟨1, "x".toList, "q".toList, "a".toList, [], none, [], 0⟩], 2, 1⟩ :
          DbState).codebases ∧
      deleteSessionHandler ("x".toList) (⟨[], [⟨0, "x".toList, "a.js".toList, "let a".toList,
          "javascript".toList, 5⟩], [⟨1, "x".toList, "q".toList, "a".toList, [], none, [], 0⟩],
          2, 1⟩ : DbState) =
        ((404, false), (deleteCodebase ("x".toList) (⟨[], [⟨0, "x".toList, "a.js".toList,
          "let a".toList, "javascript".toList, 5⟩], [⟨1, "x".toList, "q".toList, "a".toList, [],
          none, [], 0⟩], 2, 1⟩ : DbState)).2)) :=
  ⟨by simp,
    deleteCodebase_missing_correct
      (⟨[], [⟨0, "x".toList, "a.js".toList, "let a".toList, "javascript".toList, 5⟩],
        [⟨1, "x".toList, "q".toList, "a".toList, [], none, [], 0⟩], 2, 1⟩ : DbState)
      ("x".toList) (by simp)⟩

lemma insertCodebase_ok {id name source : Str} {db db' : DbState}
    (h : insertCodebase id name source db = .ok db') :
    db'.codebases = db.codebases ++ [⟨id, name, source, 0, 0, db.now⟩] ∧
    (∀ c ∈ db.codebases, c._id ≠ id) := by
  rw [insertCodebase] at h
  by_cases hany : db.codebases.any (fun c => c._id == id)
  · rw [if_pos hany] at h
    cases h
  · rw [if_neg hany] at h
    rw [Except.ok.injEq] at h
    subst h
    refine ⟨rfl, ?_⟩
    intro c hc hceq
    exact hany (List.any_eq_true.mpr ⟨c, hc, by simp [hceq]⟩)

lemma updateCodebaseStats_ids (id : Str) (fc ts : Nat) (db : DbState) :
    (updateCodebaseStats id fc ts db).codebases.map (fun c => c._id) =
      db.codebases.map (fun c => c._id) := by
  rw [updateCodebaseStats]
  simp only [List.map_map]
  refine List.map_congr_left ?_
  intro c _
  by_cases hc : c._id = id
  · simp [hc]
  · simp [hc]

lemma insertCodeFile_frame (cid fp ct lg : Str) (sz : Nat) (db : DbState) :
    (insertCodeFile cid fp ct lg sz db).2.codebases = db.codebases ∧
    (insertCodeFile cid fp ct lg sz db).2.questions = db.questions ∧
    (insertCodeFile cid fp ct lg sz db).2.now = db.now := by
  rw [insertCodeFile]
  by_cases hb : isBlank ct <;> simp [hb]

lemma foldl_insertCodeFile_frame (files : List ProcessedFile) (uuid : Str) (db : DbState) :
    (files.foldl
      (fun d f => (insertCodeFile uuid (joinPath f.relativePath) f.content f.language f.size d).2)
      db).codebases = db.codebases := by
  induction files generalizing db with
  | nil => rfl
  | cons f fs ih =>
    rw [List.foldl_cons, ih]
    exact (insertCodeFile_frame uuid (joinPath f.relativePath) f.content f.language f.size db).1

lemma ingestCodebase_ok {uuid name source : Str} {files : List ProcessedFile}
    {totalSize : Nat} {db db' : DbState}
    (h : ingestCodebase uuid name source files totalSize db = .ok db') :
    db'.codebases.map (fun c => c._id) = db.codebases.map (fun c => c._id) ++ [uuid] ∧
    (∃ c ∈ db'.codebases, c._id = uuid) := by
  rw [ingestCodebase] at h
  cases hin : insertCodebase uuid name source db with
  | error e => rw [hin] at h; cases h
  | ok db1 =>
    rw [hin] at h
    rw [Except.ok.injEq] at h
    rcases insertCodebase_ok hin with ⟨hdb1, -⟩
    have hfold := foldl_insertCodeFile_frame files uuid db1
    subst h
    constructor
    · rw [updateCodebaseStats_ids, hfold, hdb1]
      simp
    · have hmem : (⟨uuid, name, source, 0, 0, db.now⟩ : Codebase) ∈
          (files.foldl (fun d f =>
            (insertCodeFile uuid (joinPath f.relativePath) f.content f.language f.size d).2)
            db1).codebases := by
        rw [hfold, hdb1]
        simp
      refine ⟨if (⟨uuid, name, source, 0, 0, db.now⟩ : Codebase)._id == uuid then
          {(⟨uuid, name, source, 0, 0, db.now⟩ : Codebase) with
            file_count := files.length, total_size := totalSize}
        else ⟨uuid, name, source, 0, 0, db.now⟩, ?_, ?_⟩
      · rw [updateCodebaseStats]
        exact List.mem_map_of_mem _ hmem
      · by_cases hc : (⟨uuid, name, source, 0, 0, db.now⟩ : Codebase)._id == uuid <;>
          simp [hc]

lemma nodup_append_ids {α : Type} {l : List α} {a : α} (h : l.Nodup) (ha : a ∉ l) :
    (l ++ [a]).Nodup := by
  rw [List.nodup_append]
  exact ⟨h, List.nodup_singleton a, by simpa [List.disjoint_singleton] using ha⟩

/-- C5: each ingestion endpoint records the codebase under the freshly
generated UUID as the record's `_id` and preserves distinctness of codebase
ids (Mongo rejects a duplicate primary key, so a successful insert implies
freshness); and every other persistence operation preserves the uniqueness
invariant as well. -/
theorem unique_codebase_id (db : DbState) (h : uniqueCodebaseIds db) :
    (∀ (uuid name : Str) (entries : List FsEntry) (db' : DbState),
      uploadZipDb uuid name entries db = .ok db' →
        (∃ c ∈ db'.codebases, c._id = uuid) ∧ uniqueCodebaseIds db') ∧
    (∀ (uuid name : Str) (entries : List FsEntry) (db' : DbState),
      uploadGithubDb uuid name entries db = .ok db' →
        (∃ c ∈ db'.codebases, c._id = uuid) ∧ uniqueCodebaseIds db') ∧
    (∀ (uuid name : Str) (fe be : List FsEntry) (db' : DbState),
      uploadGithubSplitDb uuid name fe be db = .ok db' →
        (∃ c ∈ db'.codebases, c._id = uuid) ∧ uniqueCodebaseIds db') ∧
    (∀ (id name source : Str) (db' : DbState),
      insertCodebase id name source db = .ok db' → uniqueCodebaseIds db') ∧
    (∀ (id : Str) (fc ts : Nat), uniqueCodebaseIds (updateCodebaseStats id fc ts db)) ∧
    (∀ id : Str, uniqueCodebaseIds (deleteCodebase id db).2) ∧
    (∀ (cid fp ct lg : Str) (sz : Nat),
      uniqueCodebaseIds (insertCodeFile cid fp ct lg sz db).2) ∧
    (∀ (cid q a : Str) (fr : List FileRef) (mc : Option Str),
      uniqueCodebaseIds (insertQuestion cid q a fr mc db).2) ∧
    (∀ (qid : Nat) (tag : Str), uniqueCodebaseIds (addTagToQuestion qid tag db)) ∧
    (∀ (cid : Str) (keep : Nat), uniqueCodebaseIds (deleteOldQuestions cid keep db).2) := by
  have hinsert : ∀ (id name source : Str) (db' : DbState),
      insertCodebase id name source db = .ok db' → uniqueCodebaseIds db' := by
    intro id name source db' hok
    rcases insertCodebase_ok hok with ⟨hdb', hfresh⟩
    rw [uniqueCodebaseIds, hdb', List.map_append]
    refine nodup_append_ids h ?_
    intro hmem
    rcases List.mem_map.mp hmem with ⟨c, hc, hceq⟩
    exact hfresh c hc hceq
  have hingest : ∀ (uuid name source : Str) (files : List ProcessedFile) (totalSize : Nat)
      (db' : DbState), ingestCodebase uuid name source files totalSize db = .ok db' →
        (∃ c ∈ db'.codebases, c._id = uuid) ∧ uniqueCodebaseIds db' := by
    intro uuid name source files totalSize db' hok
    rcases ingestCodebase_ok hok with ⟨hids, hex⟩
    refine ⟨hex, ?_⟩
    rw [uniqueCodebaseIds, hids]
    refine nodup_append_ids h ?_
    intro hmem
    rcases List.mem_map.mp hmem with ⟨c, hc, hceq⟩
    rw [ingestCodebase] at hok
    cases hin : insertCodebase uuid name source db with
    | error e => rw [hin] at hok; cases hok
    | ok db1 => exact (insertCodebase_ok hin).2 c hc hceq
  refine ⟨?_, ?_, ?_, hinsert, ?_, ?_, ?_, ?_, ?_, ?_⟩
  · intro uuid name entries db' hok
    exact hingest uuid name ("upload".toList) (processCodeFiles entries).1
      (processCodeFiles entries).2 db' hok
  · intro uuid name entries db' hok
    exact hingest uuid name ("github".toList) (processCodeFiles entries).1
      (processCodeFiles entries).2 db' hok
  · intro uuid name fe be db' hok
    rw [uploadGithubSplitDb] at hok
    by_cases hempty : (prefixFiles ("frontend".toList) (processCodeFiles fe).1 ++
        prefixFiles ("backend".toList) (processCodeFiles be).1).length = 0
    · rw [if_pos hempty] at hok
      cases hok
    · rw [if_neg hempty] at hok
      exact hingest uuid name ("github-split".toList) _ _ db' hok
  · intro id fc ts
    rw [uniqueCodebaseIds, updateCodebaseStats_ids]
    exact h
  · intro id
    rw [deleteCodebase]
    cases hf : (db.codeFiles.filter (fun f => f.codebase_id != id),
        db.questions.filter (fun q => q.codebase_id != id)) with
    | mk cf qs =>
      cases hfind : db.codebases.find? (fun c => c._id == id) with
      | none => simpa [hfind] using h
      | some c =>
        simp only [hfind]
        refine List.Nodup.sublist (List.Sublist.map _ (List.eraseP_sublist _)) h
  · intro cid fp ct lg sz
    rw [uniqueCodebaseIds, (insertCodeFile_frame cid fp ct lg sz db).1]
    exact h
  · intro cid q a fr mc
    exact h
  · intro qid tag
    exact h
  · intro cid keep
    rw [deleteOldQuestions]
    by_cases hlen : 0 < ((((db.questions.filter (fun q => q.codebase_id == cid)).mergeSort
        questionCreatedDescLe).drop keep).map (fun q => q._id)).length
    · rw [if_pos hlen]
      exact h
    · rw [if_neg hlen]
      exact h

/-- Witness for C5 at a concrete database with one codebase record. -/
theorem unique_codebase_id_witness :
    uniqueCodebaseIds (⟨[⟨"a".toList, "n".toList, "upload".toList, 0, 0, 0⟩], [], [], 1, 1⟩ :
      DbState) ∧
    (∀ (id : Str) (fc ts : Nat),
      uniqueCodebaseIds (updateCodebaseStats id fc ts
        (⟨[⟨"a".toList, "n".toList, "upload".toList, 0, 0, 0⟩], [], [], 1, 1⟩ : DbState))) :=
  ⟨by decide,
    (unique_codebase_id
      (⟨[⟨"a".toList, "n".toList, "upload".toList, 0, 0, 0⟩], [], [], 1, 1⟩ : DbState)
      (by decide)).2.2.2.2.1⟩

/-- C8: the ask endpoint validates before calling any collaborator: when
`codebaseId` or `question` is missing (or JS-falsy), or the trimmed question
is shorter than 5 characters, it responds 400 with `success: false`
(`AskResponse.err 400`), the stored state is unchanged, and the LLM oracle
is never consulted (the outcome is identical for every oracle). -/
theorem ask_validation_first (llm llm2 : Str → Option LlmAnswer) (req : AskRequest)
    (db : DbState)
    (h : jsStrFalsy req.codebaseId = true ∨ jsStrFalsy req.question = true ∨
      (jsTrim (req.question.getD [])).length < 5) :
    (askHandler llm req db).2 = db ∧
    askHandler llm req db = askHandler llm2 req db ∧
    ∃ e, (askHandler llm req db).1 = .err 400 e := by
  rw [askHandler, askHandler]
  by_cases h1 : jsStrFalsy req.codebaseId || jsStrFalsy req.question
  · rw [if_pos h1, if_pos h1]
    exact ⟨rfl, rfl, _, rfl⟩
  · rw [if_neg h1, if_neg h1]
    have h5 : (jsTrim (req.question.getD [])).length < 5 := by
      rcases h with h | h | h
      · exact absurd (by rw [h]; simp) h1
      · exact absurd (by rw [h]; simp) h1
      · exact h
    rw [if_pos h5, if_pos h5]
    exact ⟨rfl, rfl, _, rfl⟩

/-- Witness for C8: a request whose question is present but too short. -/
theorem ask_validation_first_witness :
    (jsStrFalsy (⟨some ("cb1".toList), some ("hi".toList), none⟩ : AskRequest).codebaseId = true ∨
      jsStrFalsy (⟨some ("cb1".toList), some ("hi".toList), none⟩ : AskRequest).question = true ∨
      (jsTrim ((⟨some ("cb1".toList), some ("hi".toList), none⟩ :
        AskRequest).question.getD [])).length < 5) ∧
    ((askHandler (fun _ => none) (⟨some ("cb1".toList), some ("hi".toList), none⟩ : AskRequest)
        (⟨[], [], [], 0, 0⟩ : DbState)).2 = (⟨[], [], [], 0, 0⟩ : DbState) ∧
      askHandler (fun _ => none) (⟨some ("cb1".toList), some ("hi".toList), none⟩ : AskRequest)
          (⟨[], [], [], 0, 0⟩ : DbState) =
        askHandler (fun _ => some ⟨"ans".toList, none, none⟩)
          (⟨some ("cb1".toList), some ("hi".toList), none⟩ : AskRequest)
          (⟨[], [], [], 0, 0⟩ : DbState) ∧
      ∃ e, (askHandler (fun _ => none) (⟨some ("cb1".toList), some ("hi".toList), none⟩ :
        AskRequest) (⟨[], [], [], 0, 0⟩ : DbState)).1 = .err 400 e) :=
  ⟨Or.inr (Or.inr (by decide)),
    ask_validation_first (fun _ => none) (fun _ => some ⟨"ans".toList, none, none⟩)
      (⟨some ("cb1".toList), some ("hi".toList), none⟩ : AskRequest)
      (⟨[], [], [], 0, 0⟩ : DbState) (Or.inr (Or.inr (by decide)))⟩

lemma questionCreatedDescLe_trans :
    ∀ a b c : QuestionRec,
      questionCreatedDescLe a b → questionCreatedDescLe b c → questionCreatedDescLe a c := by
  intro a b c
  simp only [questionCreatedDescLe, decide_eq_true_eq]
  omega

lemma questionCreatedDescLe_total :
    ∀ a b : QuestionRec, questionCreatedDescLe a b || questionCreatedDescLe b a := by
  intro a b
  simp only [questionCreatedDescLe, Bool.or_eq_true, decide_eq_true_eq]
  omega

/-- Uniform equation for `deleteOldQuestions`: the surviving questions are
those whose id is not among the ids of the dropped tail. -/
lemma deleteOldQuestions_questions_eq (cid : Str) (keep : Nat) (db : DbState) :
    (deleteOldQuestions cid keep db).2.questions =
      db.questions.filter (fun qr =>
        !((((db.questions.filter (fun q => q.codebase_id == cid)).mergeSort
          questionCreatedDescLe).drop keep).map (fun q => q._id)).contains qr._id) := by
  rw [deleteOldQuestions]
  by_cases hlen : 0 < ((((db.questions.filter (fun q => q.codebase_id == cid)).mergeSort
      questionCreatedDescLe).drop keep).map (fun q => q._id)).length
  · rw [if_pos hlen]
  · rw [if_neg hlen]
    have hnil : (((db.questions.filter (fun q => q.codebase_id == cid)).mergeSort
        questionCreatedDescLe).drop keep).map (fun q => q._id) = [] := by
      rcases Nat.eq_zero_of_not_pos hlen with h
      exact List.eq_nil_of_length_eq_zero h
    rw [hnil]
    simp

lemma mem_sortedCid_drop {db : DbState} {cid : Str} {keep : Nat} {s : QuestionRec}
    (hs : s ∈ ((db.questions.filter (fun q => q.codebase_id == cid)).mergeSort
      questionCreatedDescLe).drop keep) :
    s ∈ db.questions ∧ s.codebase_id = cid := by
  have h1 : s ∈ (db.questions.filter (fun q => q.codebase_id == cid)).mergeSort
      questionCreatedDescLe := List.drop_subset keep _ hs
  have h2 := List.mem_mergeSort.mp h1
  exact ⟨List.mem_of_mem_filter h2, by simpa using List.of_mem_filter h2⟩

lemma nodup_sortedCid {db : DbState} {cid : Str}
    (hids : (db.questions.map (fun q => q._id)).Nodup) :
    (((db.questions.filter (fun q => q.codebase_id == cid)).mergeSort
      questionCreatedDescLe).map (fun q => q._id)).Nodup := by
  have hsub : (db.questions.filter (fun q => q.codebase_id == cid)).map (fun q => q._id) <+
      db.questions.map (fun q => q._id) :=
    List.Sublist.map _ (List.filter_sublist db.questions)
  have hnd : ((db.questions.filter (fun q => q.codebase_id == cid)).map
      (fun q => q._id)).Nodup := List.Nodup.sublist hsub hids
  exact ((List.mergeSort_perm (db.questions.filter (fun q => q.codebase_id == cid))
    questionCreatedDescLe).map (fun q => q._id)).symm.nodup hnd

lemma contains_true_iff {α : Type} [BEq α] [LawfulBEq α] {l : List α} {a : α} :
    l.contains a = true ↔ a ∈ l := List.elem_iff

/-- With globally distinct question ids, a stored question's id appears in
the deletion list exactly when the question itself is in the dropped tail. -/
lemma deleteOld_del_iff {db : DbState} {cid : Str} {keep : Nat}
    (hids : (db.questions.map (fun q => q._id)).Nodup) {qr : QuestionRec}
    (hqr : qr ∈ db.questions) :
    ((((db.questions.filter (fun q => q.codebase_id == cid)).mergeSort
        questionCreatedDescLe).drop keep).map (fun q => q._id)).contains qr._id = true ↔
      qr ∈ ((db.questions.filter (fun q => q.codebase_id == cid)).mergeSort
        questionCreatedDescLe).drop keep := by
  rw [contains_true_iff]
  constructor
  · intro hmem
    rcases List.mem_map.mp hmem with ⟨s, hs, hsid⟩
    have hseq : s = qr :=
      List.inj_on_of_nodup_map hids (mem_sortedCid_drop hs).1 hqr hsid
    exact hseq ▸ hs
  · intro h
    exact List.mem_map_of_mem (fun q => q._id) h

/-- Frame: `deleteOldQuestions` does not touch questions of other
codebases. -/
lemma deleteOld_frame {db : DbState} {cid : Str} {keep : Nat}
    (hids : (db.questions.map (fun q => q._id)).Nodup) :
    (deleteOldQuestions cid keep db).2.questions.filter (fun q => q.codebase_id != cid) =
      db.questions.filter (fun q => q.codebase_id != cid) := by
  rw [deleteOldQuestions_questions_eq, List.filter_filter]
  refine List.filter_congr ?_
  intro qr hqr
  by_cases hcid : qr.codebase_id = cid
  · simp [hcid]
  · have hdel : ((((db.questions.filter (fun q => q.codebase_id == cid)).mergeSort
        questionCreatedDescLe).drop keep).map (fun q => q._id)).contains qr._id = false := by
      rw [Bool.eq_false_iff]
      intro hcon
      exact hcid ((mem_sortedCid_drop ((deleteOld_del_iff hids hqr).mp hcon)).2)
    rw [hdel]
    simp [hcid]

/-- With globally distinct question ids, exactly the dropped tail is
removed. -/
lemma deleteOld_mem_iff {db : DbState} {cid : Str} {keep : Nat}
    (hids : (db.questions.map (fun q => q._id)).Nodup) {qr : QuestionRec}
    (hqr : qr ∈ db.questions) :
    qr ∈ (deleteOldQuestions cid keep db).2.questions ↔
      qr ∉ ((db.questions.filter (fun q => q.codebase_id == cid)).mergeSort
        questionCreatedDescLe).drop keep := by
  rw [deleteOldQuestions_questions_eq, List.mem_filter]
  constructor
  · rintro ⟨-, hk⟩
    intro hdrop
    rw [(deleteOld_del_iff hids hqr).mpr hdrop] at hk
    cases hk
  · intro hdrop
    refine ⟨hqr, ?_⟩
    rw [Bool.not_eq_eq_eq_not, Bool.not_true, Bool.eq_false_iff]
    intro hcon
    exact hdrop ((deleteOld_del_iff hids hqr).mp hcon)

/-- Splitting a list at `keep` and removing exactly the ids of the tail
leaves exactly the head. -/
lemma filter_del_eq_take {S : List QuestionRec} {keep : Nat} {del : List Nat}
    (hsup : ∀ s ∈ S.drop keep, s._id ∈ del)
    (hdis : ∀ s ∈ S.take keep, s._id ∉ del) :
    S.filter (fun qr => !del.contains qr._id) = S.take keep := by
  conv_lhs => rw [show S = S.take keep ++ S.drop keep from (List.take_append_drop keep S).symm]
  rw [List.filter_append]
  have h1 : (S.take keep).filter (fun qr => !del.contains qr._id) = S.take keep := by
    rw [List.filter_eq_self]
    intro s hs
    rw [Bool.not_eq_eq_eq_not, Bool.not_true, Bool.eq_false_iff]
    intro hcon
    exact hdis s hs (contains_true_iff.mp hcon)
  have h2 : (S.drop keep).filter (fun qr => !del.contains qr._id) = [] := by
    rw [List.filter_eq_nil_iff]
    intro s hs
    rw [contains_true_iff.mpr (hsup s hs)]
    simp
  rw [h1, h2, List.append_nil]

/-- The questions of the pruned codebase that survive `deleteOldQuestions`
are exactly (a permutation of) the `keepCount` most recent ones. -/
lemma deleteOld_filter_perm {db : DbState} {cid : Str} {keep : Nat}
    (hids : (db.questions.map (fun q => q._id)).Nodup) :
    ((deleteOldQuestions cid keep db).2.questions.filter
        (fun q => q.codebase_id == cid)).Perm
      (((db.questions.filter (fun q => q.codebase_id == cid)).mergeSort
        questionCreatedDescLe).take keep) := by
  have hperm : db.questions.filter (fun q => q.codebase_id == cid) ~
      (db.questions.filter (fun q => q.codebase_id == cid)).mergeSort
        questionCreatedDescLe :=
    (List.mergeSort_perm _ questionCreatedDescLe).symm
  have hstep1 : (deleteOldQuestions cid keep db).2.questions.filter
      (fun q => q.codebase_id == cid) =
      (db.questions.filter (fun q => q.codebase_id == cid)).filter (fun qr =>
        !((((db.questions.filter (fun q => q.codebase_id == cid)).mergeSort
          questionCreatedDescLe).drop keep).map (fun q => q._id)).contains qr._id) := by
    rw [deleteOldQuestions_questions_eq, List.filter_filter, List.filter_filter]
    refine List.filter_congr ?_
    intro qr _
    exact Bool.and_comm _ _
  rw [hstep1]
  refine (hperm.filter _).trans ?_
  have hfinal : ((db.questions.filter (fun q => q.codebase_id == cid)).mergeSort
      questionCreatedDescLe).filter (fun qr =>
        !((((db.questions.filter (fun q => q.codebase_id == cid)).mergeSort
          questionCreatedDescLe).drop keep).map (fun q => q._id)).contains qr._id) =
      ((db.questions.filter (fun q => q.codebase_id == cid)).mergeSort
        questionCreatedDescLe).take keep := by
    refine filter_del_eq_take ?_ ?_
    · intro s hs
      exact List.mem_map_of_mem (fun q => q._id) hs
    · intro s hstake hcon
      rcases List.mem_map.mp hcon with ⟨d, hd, hdid⟩
      have hdS : d ∈ (db.questions.filter (fun q => q.codebase_id == cid)).mergeSort
          questionCreatedDescLe := List.drop_subset keep _ hd
      have hsS : s ∈ (db.questions.filter (fun q => q.codebase_id == cid)).mergeSort
          questionCreatedDescLe := List.take_subset keep _ hstake
      have hds : d = s := List.inj_on_of_nodup_map (nodup_sortedCid hids) hdS hsS hdid
      have hnodupS : (((db.questions.filter (fun q => q.codebase_id == cid)).mergeSort
          questionCreatedDescLe)).Nodup :=
        List.Nodup.of_map _ (nodup_sortedCid hids)
      exact (List.disjoint_take_drop hnodupS (Nat.le_refl keep)) hstake (hds ▸ hd)
  rw [hfinal]

/-- After `deleteOldQuestions`, at most `keepCount` questions of the pruned
codebase remain. -/
lemma deleteOld_cap {db : DbState} {cid : Str} {keep : Nat}
    (hids : (db.questions.map (fun q => q._id)).Nodup) :
    ((deleteOldQuestions cid keep db).2.questions.filter
      (fun q => q.codebase_id == cid)).length ≤ keep := by
  rw [(deleteOld_filter_perm hids).length_eq, List.length_take]
  omega

lemma preservesQuestionFields_id : preservesQuestionFields (fun qr => qr) :=
  fun _ => ⟨rfl, rfl, rfl, rfl, rfl, rfl, rfl⟩

lemma preservesQuestionFields_comp {g1 g2 : QuestionRec → QuestionRec}
    (h1 : preservesQuestionFields g1) (h2 : preservesQuestionFields g2) :
    preservesQuestionFields (fun qr => g2 (g1 qr)) := by
  intro qr
  rcases h1 qr with ⟨a1, b1, c1, d1, e1, f1, i1⟩
  rcases h2 (g1 qr) with ⟨a2, b2, c2, d2, e2, f2, i2⟩
  exact ⟨a2.trans a1, b2.trans b1, c2.trans c1, d2.trans d1, e2.trans e1, f2.trans f1,
    i2.trans i1⟩

lemma addTag_shape (tid : Nat) (tag : Str) (db : DbState) :
    ∃ g, preservesQuestionFields g ∧
      (addTagToQuestion tid tag db).questions = db.questions.map g ∧
      (addTagToQuestion tid tag db).nextId = db.nextId ∧
      (addTagToQuestion tid tag db).now = db.now := by
  refine ⟨fun q =>
    if q._id == tid then
      (if q.tags.contains tag then q else { q with tags := q.tags ++ [tag] })
    else q, ?_, rfl, rfl, rfl⟩
  intro qr
  by_cases h1 : qr._id == tid
  · by_cases h2 : tag ∈ qr.tags
    · simp [h1, h2]
    · simp [h1, h2]
  · simp [h1]

lemma foldlTags_shape (qid : Nat) : ∀ (ts : List Str) (db : DbState),
    ∃ g, preservesQuestionFields g ∧
      (ts.foldl (fun d tag =>
        if (jsTrim tag).isEmpty then d else addTagToQuestion qid (jsTrim tag) d) db).questions =
        db.questions.map g ∧
      (ts.foldl (fun d tag =>
        if (jsTrim tag).isEmpty then d else addTagToQuestion qid (jsTrim tag) d) db).nextId =
        db.nextId ∧
      (ts.foldl (fun d tag =>
        if (jsTrim tag).isEmpty then d else addTagToQuestion qid (jsTrim tag) d) db).now =
        db.now := by
  intro ts
  induction ts with
  | nil =>
    intro db
    exact ⟨fun q => q, preservesQuestionFields_id, (List.map_id _).symm, rfl, rfl⟩
  | cons t ts ih =>
    intro db
    rw [List.foldl_cons]
    by_cases ht : (jsTrim t).isEmpty
    · rw [if_pos ht]
      exact ih db
    · rw [if_neg ht]
      rcases addTag_shape qid (jsTrim t) db with ⟨g1, hg1, hq1, hn1, hw1⟩
      rcases ih (addTagToQuestion qid (jsTrim t) db) with ⟨g2, hg2, hq2, hn2, hw2⟩
      refine ⟨fun q => g2 (g1 q), preservesQuestionFields_comp hg1 hg2, ?_, ?_, ?_⟩
      · rw [hq2, hq1, List.map_map]
        rfl
      · rw [hn2, hn1]
      · rw [hw2, hw1]

lemma applyTags_shape (tags : Option (List Str)) (qid : Nat) (db : DbState) :
    ∃ g, preservesQuestionFields g ∧
      (applyTags tags qid db).questions = db.questions.map g ∧
      (applyTags tags qid db).nextId = db.nextId ∧
      (applyTags tags qid db).now = db.now := by
  cases tags with
  | none => exact ⟨fun q => q, preservesQuestionFields_id, (List.map_id _).symm, rfl, rfl⟩
  | some ts => exact foldlTags_shape qid ts db

lemma answerQuestion_ok {llm : Str → Option LlmAnswer} {cid q : Str} {db : DbState}
    {r : LlmAnswer} (hfiles : getCodebaseFiles cid db ≠ [])
    (hllm : llm (createPrompt q (buildContext
      (findRelevantFiles (getCodebaseFiles cid db) q))) = some r) :
    answerQuestion llm cid q db = .ok (r.answer, r.mermaidCode, r.references.getD []) := by
  simp only [answerQuestion]
  rw [if_neg (by simpa [List.length_eq_zero] using hfiles), hllm]

/-- The success path of the ask handler, as one equation. -/
lemma askHandler_success_eq {llm : Str → Option LlmAnswer} {req : AskRequest} {db : DbState}
    {cid q : Str} {r : LlmAnswer}
    (hcid : req.codebaseId = some cid) (hcne : cid ≠ [])
    (hq : req.question = some q) (hqlen : 5 ≤ (jsTrim q).length)
    (hfiles : getCodebaseFiles cid db ≠ [])
    (hllm : llm (createPrompt q (buildContext
      (findRelevantFiles (getCodebaseFiles cid db) q))) = some r) :
    askHandler llm req db =
      (.ok db.nextId r.answer r.mermaidCode (r.references.getD []),
        (deleteOldQuestions cid 10
          (applyTags req.tags db.nextId
            (insertQuestion cid q r.answer (r.references.getD []) r.mermaidCode db).2)).2) := by
  have hqne : q ≠ [] := by
    intro h
    rw [h] at hqlen
    simp [jsTrim] at hqlen
  have hfls : (jsStrFalsy req.codebaseId || jsStrFalsy req.question) = false := by
    rw [hcid, hq]
    simp [jsStrFalsy, List.isEmpty_iff, hcne, hqne]
  rw [askHandler, if_neg (by rw [hfls]; simp)]
  rw [hcid, hq]
  simp only [Option.getD_some]
  rw [if_neg (by omega), answerQuestion_ok hfiles hllm]
  rfl

lemma ask_persists (tags : Option (List Str)) (cid q ans : Str) (fr : List FileRef)
    (mc : Option Str) {db : DbState} (hwf : DbWF db) :
    ∃ qr ∈ (deleteOldQuestions cid 10
        (applyTags tags db.nextId (insertQuestion cid q ans fr mc db).2)).2.questions,
      qr.codebase_id = cid ∧ qr.question = q ∧ qr.answer = ans ∧
        qr.file_references = fr ∧ qr.mermaid_code = mc := by
  rcases applyTags_shape tags db.nextId (insertQuestion cid q ans fr mc db).2 with
    ⟨g, hg, hq2, -, -⟩
  have hq1 : (insertQuestion cid q ans fr mc db).2.questions =
      db.questions ++ [⟨db.nextId, cid, q, ans, fr, mc, [], db.now⟩] := rfl
  have hids1 : ((insertQuestion cid q ans fr mc db).2.questions.map
      (fun qq => qq._id)).Nodup := by
    rw [hq1, List.map_append]
    refine nodup_append_ids hwf.2 ?_
    intro hmem
    rcases List.mem_map.mp hmem with ⟨x, hx, hxid⟩
    have := (hwf.1 x hx).1
    simp only at hxid
    omega
  have hids2 : ((applyTags tags db.nextId (insertQuestion cid q ans fr mc db).2).questions.map
      (fun qq => qq._id)).Nodup := by
    rw [hq2, List.map_map]
    have heq : (insertQuestion cid q ans fr mc db).2.questions.map ((fun qq => qq._id) ∘ g) =
        (insertQuestion cid q ans fr mc db).2.questions.map (fun qq => qq._id) :=
      List.map_congr_left (fun x _ => (hg x).1)
    rw [heq]
    exact hids1
  have hmem2 : g ⟨db.nextId, cid, q, ans, fr, mc, [], db.now⟩ ∈
      (applyTags tags db.nextId (insertQuestion cid q ans fr mc db).2).questions := by
    rw [hq2, hq1]
    exact List.mem_map_of_mem g (List.mem_append_right _ (List.mem_singleton.mpr rfl))
  have hnotdrop : g ⟨db.nextId, cid, q, ans, fr, mc, [], db.now⟩ ∉
      (((applyTags tags db.nextId
          (insertQuestion cid q ans fr mc db).2).questions.filter
        (fun qq => qq.codebase_id == cid)).mergeSort questionCreatedDescLe).drop 10 := by
    intro hdrop
    set S := (((applyTags tags db.nextId
        (insertQuestion cid q ans fr mc db).2).questions.filter
      (fun qq => qq.codebase_id == cid)).mergeSort questionCreatedDescLe) with hS
    have hlenS : 10 < S.length := by
      rcases Nat.lt_or_ge 10 S.length with hlt | hge
      · exact hlt
      · rw [List.drop_eq_nil_of_le hge] at hdrop
        cases hdrop
    have htak : S.take 10 ≠ [] := by
      intro h
      have hlt := congrArg List.length h
      rw [List.length_take] at hlt
      simp only [List.length_nil] at hlt
      omega
    obtain ⟨a, ha⟩ := List.exists_mem_of_ne_nil _ htak
    have haS : a ∈ S := List.take_subset 10 S ha
    have haq : a ∈ (applyTags tags db.nextId
        (insertQuestion cid q ans fr mc db).2).questions :=
      List.mem_of_mem_filter (List.mem_mergeSort.mp (hS ▸ haS))
    rw [hq2, hq1] at haq
    rcases List.mem_map.mp haq with ⟨x, hx, hax⟩
    have hpw : S.Pairwise (fun u v => questionCreatedDescLe u v = true) := by
      rw [hS]
      exact List.sorted_mergeSort questionCreatedDescLe_trans questionCreatedDescLe_total _
    have hSsplit : S = S.take 10 ++ S.drop 10 := (List.take_append_drop 10 S).symm
    have hle' : questionCreatedDescLe a (g ⟨db.nextId, cid, q, ans, fr, mc, [], db.now⟩) =
        true :=
      (List.pairwise_append.mp (hSsplit ▸ hpw)).2.2 a ha _ hdrop
    rw [questionCreatedDescLe, decide_eq_true_eq] at hle'
    have hgnew_ca : (g ⟨db.nextId, cid, q, ans, fr, mc, [], db.now⟩).created_at = db.now :=
      (hg _).2.2.2.2.2.2
    rcases List.mem_append.mp hx with hxold | hxnew
    · have hax_ca : a.created_at = x.created_at := by
        rw [← hax]
        exact (hg x).2.2.2.2.2.2
      have hlt := (hwf.1 x hxold).2
      omega
    · have hxeq : x = ⟨db.nextId, cid, q, ans, fr, mc, [], db.now⟩ :=
        List.mem_singleton.mp hxnew
      rw [hxeq] at hax
      have hnd : S.Nodup := by
        rw [hS]
        exact List.Nodup.of_map _ (nodup_sortedCid hids2)
      exact (List.disjoint_take_drop hnd (Nat.le_refl 10)) (hax ▸ ha) hdrop
  refine ⟨g ⟨db.nextId, cid, q, ans, fr, mc, [], db.now⟩,
    (deleteOld_mem_iff hids2 hmem2).mpr hnotdrop, ?_, ?_, ?_, ?_, ?_⟩
  · exact (hg _).2.1
  · exact (hg _).2.2.1
  · exact (hg _).2.2.2.1
  · exact (hg _).2.2.2.2.1
  · exact (hg _).2.2.2.2.2.1

/-- After inserting the new question and applying the tag loop, the stored
question ids are still pairwise distinct. -/
lemma ask_db2_ids (tags : Option (List Str)) (cid q ans : Str) (fr : List FileRef)
    (mc : Option Str) {db : DbState} (hwf : DbWF db) :
    ((applyTags tags db.nextId (insertQuestion cid q ans fr mc db).2).questions.map
      (fun qq => qq._id)).Nodup := by
  rcases applyTags_shape tags db.nextId (insertQuestion cid q ans fr mc db).2 with
    ⟨g, hg, hq2, -, -⟩
  have hq1 : (insertQuestion cid q ans fr mc db).2.questions =
      db.questions ++ [⟨db.nextId, cid, q, ans, fr, mc, [], db.now⟩] := rfl
  have hids1 : ((insertQuestion cid q ans fr mc db).2.questions.map
      (fun qq => qq._id)).Nodup := by
    rw [hq1, List.map_append]
    refine nodup_append_ids hwf.2 ?_
    intro hmem
    rcases List.mem_map.mp hmem with ⟨x, hx, hxid⟩
    have := (hwf.1 x hx).1
    simp only at hxid
    omega
  rw [hq2, List.map_map]
  have heq : (insertQuestion cid q ans fr mc db).2.questions.map ((fun qq => qq._id) ∘ g) =
      (insertQuestion cid q ans fr mc db).2.questions.map (fun qq => qq._id) :=
    List.map_congr_left (fun x _ => (hg x).1)
  rw [heq]
  exact hids1

/-- C7: on a valid request whose codebase has files and whose LLM call
succeeds, the ask endpoint responds with the success body (questionId, the
LLM's answer, the optional mermaid code, and the file references) and the
final database contains a question record carrying exactly that question,
answer, file-reference list and mermaid code. -/
theorem ask_success_responds_and_persists
    (llm : Str → Option LlmAnswer) (req : AskRequest) (db : DbState)
    (cid q : Str) (r : LlmAnswer)
    (hwf : DbWF db)
    (hcid : req.codebaseId = some cid) (hcne : cid ≠ [])
    (hq : req.question = some q) (hqlen : 5 ≤ (jsTrim q).length)
    (hfiles : getCodebaseFiles cid db ≠ [])
    (hllm : llm (createPrompt q (buildContext
      (findRelevantFiles (getCodebaseFiles cid db) q))) = some r) :
    (askHandler llm req db).1 =
      AskResponse.ok db.nextId r.answer r.mermaidCode (r.references.getD []) ∧
    ∃ qr ∈ (askHandler llm req db).2.questions,
      qr.codebase_id = cid ∧ qr.question = q ∧ qr.answer = r.answer ∧
        qr.file_references = r.references.getD [] ∧ qr.mermaid_code = r.mermaidCode := by
  rw [askHandler_success_eq hcid hcne hq hqlen hfiles hllm]
  exact ⟨rfl, ask_persists req.tags cid q r.answer (r.references.getD []) r.mermaidCode hwf⟩

/-- Witness for C7 at the concrete fixtures. -/
theorem ask_success_responds_and_persists_witness :
    (DbWF wDb ∧ wReq.codebaseId = some ("cb".toList) ∧ ("cb".toList : Str) ≠ [] ∧
      wReq.question = some ("hello".toList) ∧ 5 ≤ (jsTrim ("hello".toList)).length ∧
      getCodebaseFiles ("cb".toList) wDb ≠ [] ∧
      wLlm (createPrompt ("hello".toList) (buildContext
        (findRelevantFiles (getCodebaseFiles ("cb".toList) wDb) ("hello".toList)))) =
        some ⟨"ans".toList, none, none⟩) ∧
    ((askHandler wLlm wReq wDb).1 =
      AskResponse.ok wDb.nextId ("ans".toList)
        (LlmAnswer.mk ("ans".toList) none none).mermaidCode
        ((LlmAnswer.mk ("ans".toList) none none).references.getD []) ∧
    ∃ qr ∈ (askHandler wLlm wReq wDb).2.questions,
      qr.codebase_id = "cb".toList ∧ qr.question = "hello".toList ∧
        qr.answer = "ans".toList ∧
        qr.file_references = (LlmAnswer.mk ("ans".toList) none none).references.getD [] ∧
        qr.mermaid_code = (LlmAnswer.mk ("ans".toList) none none).mermaidCode) :=
  ⟨⟨by decide, rfl, by decide, rfl, by decide, by decide, rfl⟩,
    by
      have h := ask_success_responds_and_persists wLlm wReq wDb ("cb".toList) ("hello".toList)
        ⟨"ans".toList, none, none⟩ (by decide) rfl (by decide) rfl (by decide) (by decide) rfl
      exact h⟩

/-- C10: `deleteOldQuestions` leaves questions of other codebases unchanged
and deletes exactly the pruned codebase's questions beyond the `keepCount`
most recent by `created_at`; the survivors of that codebase are the at most
`keepCount` most recent ones; and every successful /ask request, which ends
by `deleteOldQuestions(codebaseId, 10)`, leaves at most 10 stored questions
for its codebase. -/
theorem deleteOldQuestions_exact_and_cap (db : DbState) (cid : Str) (keep : Nat)
    (hids : (db.questions.map (fun q => q._id)).Nodup) :
    ((deleteOldQuestions cid keep db).2.questions.filter (fun q => q.codebase_id != cid) =
      db.questions.filter (fun q => q.codebase_id != cid)) ∧
    (∀ qr ∈ db.questions,
      (qr ∈ (deleteOldQuestions cid keep db).2.questions ↔
        qr ∉ ((db.questions.filter (fun q => q.codebase_id == cid)).mergeSort
          questionCreatedDescLe).drop keep)) ∧
    ((deleteOldQuestions cid keep db).2.questions.filter
        (fun q => q.codebase_id == cid)).Perm
      (((db.questions.filter (fun q => q.codebase_id == cid)).mergeSort
        questionCreatedDescLe).take keep) ∧
    ((deleteOldQuestions cid keep db).2.questions.filter
      (fun q => q.codebase_id == cid)).length ≤ keep ∧
    (∀ (llm : Str → Option LlmAnswer) (req : AskRequest) (db0 : DbState) (cid0 q0 : Str)
      (r : LlmAnswer), DbWF db0 → req.codebaseId = some cid0 → cid0 ≠ [] →
      req.question = some q0 → 5 ≤ (jsTrim q0).length →
      getCodebaseFiles cid0 db0 ≠ [] →
      llm (createPrompt q0 (buildContext (findRelevantFiles (getCodebaseFiles cid0 db0) q0)))
        = some r →
      ((askHandler llm req db0).2.questions.filter
        (fun qq => qq.codebase_id == cid0)).length ≤ 10) := by
  refine ⟨deleteOld_frame hids, fun qr hqr => deleteOld_mem_iff hids hqr,
    deleteOld_filter_perm hids, deleteOld_cap hids, ?_⟩
  intro llm req db0 cid0 q0 r hwf hcid hcne hq hqlen hfiles hllm
  rw [askHandler_success_eq hcid hcne hq hqlen hfiles hllm]
  exact deleteOld_cap
    (ask_db2_ids req.tags cid0 q0 r.answer (r.references.getD []) r.mermaidCode hwf)

/-- Witness for C10 at a concrete database with one stored question. -/
theorem deleteOldQuestions_exact_and_cap_witness :
    ((wDb10.questions.map (fun q => q._id)).Nodup) ∧
    (((deleteOldQuestions ("cb".toList) 10 wDb10).2.questions.filter
        (fun q => q.codebase_id != "cb".toList) =
      wDb10.questions.filter (fun q => q.codebase_id != "cb".toList)) ∧
    (∀ qr ∈ wDb10.questions,
      (qr ∈ (deleteOldQuestions ("cb".toList) 10 wDb10).2.questions ↔
        qr ∉ ((wDb10.questions.filter (fun q => q.codebase_id == "cb".toList)).mergeSort
          questionCreatedDescLe).drop 10)) ∧
    ((deleteOldQuestions ("cb".toList) 10 wDb10).2.questions.filter
        (fun q => q.codebase_id == "cb".toList)).Perm
      (((wDb10.questions.filter (fun q => q.codebase_id == "cb".toList)).mergeSort
        questionCreatedDescLe).take 10) ∧
    ((deleteOldQuestions ("cb".toList) 10 wDb10).2.questions.filter
      (fun q => q.codebase_id == "cb".toList)).length ≤ 10 ∧
    (∀ (llm : Str → Option LlmAnswer) (req : AskRequest) (db0 : DbState) (cid0 q0 : Str)
      (r : LlmAnswer), DbWF db0 → req.codebaseId = some cid0 → cid0 ≠ [] →
      req.question = some q0 → 5 ≤ (jsTrim q0).length →
      getCodebaseFiles cid0 db0 ≠ [] →
      llm (createPrompt q0 (buildContext (findRelevantFiles (getCodebaseFiles cid0 db0) q0)))
        = some r →
      ((askHandler llm req db0).2.questions.filter
        (fun qq => qq.codebase_id == cid0)).length ≤ 10)) :=
  ⟨by decide, deleteOldQuestions_exact_and_cap wDb10 ("cb".toList) 10 (by decide)⟩

end RepoMind
